import Mathlib

/-!
# Verification of the vmshed scheduler core

Shallow embedding of the vmshed repository (package `cmd`): the subnet
allocator (`network_list.go`), the scheduler state and actions
(`network_list.go`, scheduler part), run expansion (`vmshed.go`), the
subprocess runner error discipline (`exec.go`), test classification
(`test.go` / `execTest`), image provisioning classification (`vm.go`),
teardown (`tearDown`), and the summary table (`printSummaryTable`).

Conventions used throughout:
* Go maps are modelled as association lists (`List (κ × α)`) with
  `alookup` for reads and `aset` for `m[k] = v` (update in place when the
  key is present, append otherwise).  `len(m)` is the list length.
* Go `map[int]bool` sets (`freeIDs`) are modelled as `Finset ℕ` (the code
  only ever stores `true` values).
* IP networks (`*net.IPNet`) are modelled by `Cidr`: an address family
  flag, the network address as a natural number, and the prefix length.
  `cidr.NextSubnet` with the subnet's own prefix length becomes
  `nextSubnet`.
* Go errors are the inductive `GoErr`; a `nil` error is `none : Option GoErr`.
* Network name strings `"vmshed-%d-%s"` are modelled by the structure
  `NName` (the format is injective in the index and the access/extra tag).
* Functions that can panic (`ReserveNext` on subnet exhaustion) return
  `Option`, with `none` for the panic.
-/

set_option linter.unusedVariables false

namespace Vmshed

/-! ## Association list helpers (Go map operations) -/

section Assoc

variable {κ : Type} {α : Type} [DecidableEq κ]

/-- Go map read `v, ok := m[k]`: `some v` when present, `none` otherwise. -/
def alookup (k : κ) : List (κ × α) → Option α
  | [] => none
  | (k', v) :: rest => if k' = k then some v else alookup k rest

/-- Go map assignment `m[k] = v`: overwrite when present, append otherwise. -/
def aset (k : κ) (v : α) : List (κ × α) → List (κ × α)
  | [] => [(k, v)]
  | (k', v') :: rest => if k' = k then (k, v) :: rest else (k', v') :: aset k v rest

theorem alookup_aset_self (k : κ) (v : α) (l : List (κ × α)) :
    alookup k (aset k v l) = some v := by
  induction l with
  | nil => simp [aset, alookup]
  | cons kv rest ih =>
    by_cases h : kv.1 = k
    · simp [aset, h, alookup]
    · simp [aset, h, alookup, ih]

theorem alookup_aset_ne (k k' : κ) (v : α) (l : List (κ × α)) (h : k' ≠ k) :
    alookup k' (aset k v l) = alookup k' l := by
  have hkk' : ¬(k = k') := fun he => h he.symm
  induction l with
  | nil => simp [aset, alookup, hkk']
  | cons kv rest ih =>
    by_cases hk : kv.1 = k
    · subst hk
      simp only [aset, if_pos rfl, alookup]
      rw [if_neg hkk', if_neg hkk']
    · simp only [aset, if_neg hk, alookup]
      by_cases hk' : kv.1 = k'
      · simp [hk']
      · simp [hk', ih]

theorem aset_of_absent (k : κ) (v : α) (l : List (κ × α))
    (h : alookup k l = none) : aset k v l = l ++ [(k, v)] := by
  induction l with
  | nil => simp [aset]
  | cons kv rest ih =>
    simp only [alookup] at h
    by_cases hk : kv.1 = k
    · simp [hk] at h
    · simp only [aset, if_neg hk, List.cons_append, List.cons.injEq, true_and]
      exact ih (by simpa [hk] using h)

theorem alookup_eq_none_of_not_mem_keys (k : κ) (l : List (κ × α))
    (h : k ∉ l.map Prod.fst) : alookup k l = none := by
  induction l with
  | nil => rfl
  | cons kv rest ih =>
    simp only [List.map_cons, List.mem_cons] at h
    push_neg at h
    have h1 : ¬(kv.1 = k) := fun he => h.1 he.symm
    simp only [alookup, if_neg h1]
    exact ih h.2

theorem alookup_isSome_of_mem {k : κ} {v : α} {l : List (κ × α)}
    (h : (k, v) ∈ l) : ∃ w, alookup k l = some w := by
  induction l with
  | nil => simp at h
  | cons kv rest ih =>
    rcases List.mem_cons.1 h with h | h
    · exact ⟨kv.2, by simp [alookup, ← h]⟩
    · by_cases hk : kv.1 = k
      · exact ⟨kv.2, by simp [alookup, hk]⟩
      · simpa [alookup, hk] using ih h

/-- With no duplicate keys, membership determines the lookup result. -/
theorem alookup_eq_of_mem_of_nodup {k : κ} {v : α} {l : List (κ × α)}
    (hn : (l.map Prod.fst).Nodup) (h : (k, v) ∈ l) : alookup k l = some v := by
  induction l with
  | nil => simp at h
  | cons kv rest ih =>
    simp only [List.map_cons, List.nodup_cons] at hn
    rcases List.mem_cons.1 h with h | h
    · simp [alookup, ← h]
    · have hk : kv.1 ≠ k := by
        intro he
        exact hn.1 (he ▸ (List.mem_map.2 ⟨(k, v), h, rfl⟩))
      simp [alookup, hk, ih hn.2 h]

theorem mem_of_alookup_eq_some {k : κ} {v : α} {l : List (κ × α)}
    (h : alookup k l = some v) : (k, v) ∈ l := by
  induction l with
  | nil => simp [alookup] at h
  | cons kv rest ih =>
    simp only [alookup] at h
    by_cases hk : kv.1 = k
    · rw [if_pos hk] at h
      obtain ⟨k0, v0⟩ := kv
      simp only [Option.some.injEq] at h
      simp only at hk
      subst hk h
      exact List.mem_cons_self _ _
    · rw [if_neg hk] at h
      exact List.mem_cons_of_mem _ (ih h)

end Assoc

/-! ## Go errors and test statuses (`test.go`) -/

/-- Model of Go `error` values produced by the code under verification. -/
inductive GoErr
  /-- `fmt.Errorf("canceled")` -/
  | canceled
  /-- `fmt.Errorf("timeout: %w", err)` with non-nil `err`. -/
  | timeout (inner : GoErr)
  /-- `fmt.Errorf("timeout: %w", err)` with nil `err`. -/
  | timeoutNil
  /-- `fmt.Errorf("%s: %w", label, err)` -/
  | wrapped (label : String) (inner : GoErr)
  /-- any other error (exit statuses, write failures, ...), by identity. -/
  | other (code : ℕ)
deriving DecidableEq, Repr

/-- `fmt.Errorf("timeout: %w", err)` for a possibly-nil `err`. -/
def GoErr.timeoutWrap : Option GoErr → GoErr
  | none => .timeoutNil
  | some e => .timeout e

/-- `TestStatus` from `test.go`. -/
inductive TestStatus
  | skipped | success | canceled | failedTimeout | failed | error
deriving DecidableEq, Repr

/-- `FailurePolicy` from `vmshed.go`. -/
inductive FailurePolicy
  | onFailureContinue | onFailureTerminate | onFailureKeepVms
deriving DecidableEq, Repr

/-! ## Subnet allocator (`network_list.go`: `networkList`) -/

/-- A `*net.IPNet`: address family, network address, prefix length. -/
structure Cidr where
  isV6 : Bool
  addr : ℕ
  maskLen : ℕ
deriving DecidableEq, Repr

/-- Number of address bits of the family. -/
def Cidr.width (c : Cidr) : ℕ := if c.isV6 then 128 else 32

/-- `cidr.NextSubnet(candidate, prefix)` where `prefix` is the candidate's own
mask size: the adjacent subnet of the same size; `none` models `exceed`. -/
def nextSubnet (c : Cidr) : Option Cidr :=
  let step := 2 ^ (c.width - c.maskLen)
  if c.addr + 2 * step ≤ 2 ^ c.width then some { c with addr := c.addr + step }
  else none

/-- `networkList` from `network_list.go`.  `freeNets` is keyed by the CIDR
(the Go code keys by its string rendering, which is injective). -/
structure networkList where
  currentV4 : Cidr
  currentV6 : Cidr
  freeNets : List (Cidr × Bool)
deriving DecidableEq, Repr

def NewNetworkList (v4 v6 : Cidr) : networkList := ⟨v4, v6, []⟩

/-- The `for k, v := range n.freeNets` scan in `ReserveNext`: find a block of
the requested family that is marked reusable.  Go map iteration order is
unspecified; the model scans the association list front to back. -/
def findFreeNet (ipv6 : Bool) : List (Cidr × Bool) → Option Cidr
  | [] => none
  | (k, v) :: rest => if v && (k.isV6 == ipv6) then some k else findFreeNet ipv6 rest

/-- `networkList.ReserveNext`.  `none` models the
`panic("available subnets exhausted")` case. -/
def ReserveNext (n : networkList) (ipv6 : Bool) : Option (Cidr × networkList) :=
  match findFreeNet ipv6 n.freeNets with
  | some k => some (k, { n with freeNets := aset k false n.freeNets })
  | none =>
    let candidate := if ipv6 then n.currentV6 else n.currentV4
    match nextSubnet candidate with
    | none => none
    | some next =>
      some (candidate,
        { currentV4 := if ipv6 then n.currentV4 else next
          currentV6 := if ipv6 then next else n.currentV6
          freeNets := aset candidate false n.freeNets })

/-- `networkList.Free` (nil pointer modelled by `none`). -/
def Free (n : networkList) (ipNet : Option Cidr) : networkList :=
  match ipNet with
  | none => n
  | some c => { n with freeNets := aset c true n.freeNets }

/-- The monotonic cursor of the requested family (`candidate` in `ReserveNext`). -/
def cursorOf (n : networkList) (ipv6 : Bool) : Cidr :=
  if ipv6 then n.currentV6 else n.currentV4

theorem findFreeNet_eq_none_iff (f : Bool) (l : List (Cidr × Bool)) :
    findFreeNet f l = none ↔ ∀ kv ∈ l, kv.2 = true → kv.1.isV6 ≠ f := by
  induction l with
  | nil => simp [findFreeNet]
  | cons kv rest ih =>
    obtain ⟨k, v⟩ := kv
    simp only [findFreeNet]
    by_cases hc : (v && (k.isV6 == f)) = true
    · simp only [if_pos hc]
      simp only [Bool.and_eq_true, beq_iff_eq] at hc
      constructor
      · intro h
        exact absurd h (by simp)
      · intro h
        exact absurd hc.2 (h (k, v) (List.mem_cons_self _ _) hc.1)
    · simp only [if_neg hc, ih]
      constructor
      · rintro h ⟨k', v'⟩ hm hv
        rcases List.mem_cons.1 hm with he | hm'
        · injection he with h1 h2
          subst h1
          subst h2
          simp only at hv
          subst hv
          show k'.isV6 ≠ f
          intro hf
          exact hc (by simp [hf])
        · exact h (k', v') hm' hv
      · intro h kv' hm hv
        exact h kv' (List.mem_cons_of_mem _ hm) hv

theorem findFreeNet_eq_some {f : Bool} {l : List (Cidr × Bool)} {k : Cidr}
    (h : findFreeNet f l = some k) : (k, true) ∈ l ∧ k.isV6 = f := by
  induction l with
  | nil => simp [findFreeNet] at h
  | cons kv rest ih =>
    obtain ⟨k', v'⟩ := kv
    simp only [findFreeNet] at h
    by_cases hc : (v' && (k'.isV6 == f)) = true
    · rw [if_pos hc] at h
      simp only [Option.some.injEq] at h
      subst h
      simp only [Bool.and_eq_true, beq_iff_eq] at hc
      obtain ⟨hv', hf⟩ := hc
      subst hv'
      exact ⟨List.mem_cons_self _ _, hf⟩
    · rw [if_neg hc] at h
      exact ⟨List.mem_cons_of_mem _ (ih h).1, (ih h).2⟩

theorem aset_aset_same (k : Cidr) (v v' : Bool) (l : List (Cidr × Bool)) :
    aset k v' (aset k v l) = aset k v' l := by
  induction l with
  | nil => simp [aset]
  | cons kv rest ih =>
    by_cases hk : kv.1 = k
    · simp [aset, hk]
    · simp [aset, hk, ih]

theorem findFreeNet_aset_true {f : Bool} {l : List (Cidr × Bool)} {k : Cidr}
    (hnone : findFreeNet f l = none) (hf : k.isV6 = f) :
    findFreeNet f (aset k true l) = some k := by
  induction l with
  | nil => simp [aset, findFreeNet, hf]
  | cons kv rest ih =>
    obtain ⟨k', v'⟩ := kv
    simp only [findFreeNet] at hnone
    by_cases hc : (v' && (k'.isV6 == f)) = true
    · rw [if_pos hc] at hnone
      exact absurd hnone (by simp)
    · rw [if_neg hc] at hnone
      by_cases hk : k' = k
      · subst hk
        simp [aset, findFreeNet, hf]
      · simp only [aset, if_neg (by simpa using hk), findFreeNet, if_neg hc]
        exact ih hnone

/-- **C6.** Subnet allocator round-trip: starting from any allocator state with
well-formed cursors and no reusable block of family `f`, `ReserveNext f`
followed by `Free` of the returned block followed by `ReserveNext f` returns
the same block again and leaves both cursors exactly where they were after the
first reservation.  In general (second and third conjuncts), `ReserveNext`
returns a freed block of the requested family whenever one exists (leaving the
cursors untouched), and only otherwise advances the monotonic cursor by one
subnet of the same mask length — returning the old cursor value — or fails
(`none`, the Go panic) on overflow. -/
theorem reserveNext_free_reserveNext
    (n : networkList) (f : Bool) (x : Cidr) (n1 : networkList)
    (hv4 : n.currentV4.isV6 = false) (hv6 : n.currentV6.isV6 = true)
    (hnone : ∀ kv ∈ n.freeNets, kv.2 = true → kv.1.isV6 ≠ f)
    (hres : ReserveNext n f = some (x, n1)) :
    (∃ n3, ReserveNext (Free n1 (some x)) f = some (x, n3) ∧
       cursorOf n3 f = cursorOf n1 f ∧
       n3.currentV4 = n1.currentV4 ∧ n3.currentV6 = n1.currentV6) ∧
    (∀ (m : networkList) (g : Bool) (k : Cidr),
       findFreeNet g m.freeNets = some k →
         (k, true) ∈ m.freeNets ∧ k.isV6 = g ∧
         ReserveNext m g = some (k, { m with freeNets := aset k false m.freeNets })) ∧
    (∀ (m : networkList) (g : Bool),
       findFreeNet g m.freeNets = none →
         ReserveNext m g = none ∨
         (nextSubnet (cursorOf m g) =
            some { cursorOf m g with
                     addr := (cursorOf m g).addr
                       + 2 ^ ((cursorOf m g).width - (cursorOf m g).maskLen) } ∧
          ReserveNext m g =
            some (cursorOf m g,
              { currentV4 := if g then m.currentV4 else
                  { cursorOf m g with
                      addr := (cursorOf m g).addr
                        + 2 ^ ((cursorOf m g).width - (cursorOf m g).maskLen) }
                currentV6 := if g then
                  { cursorOf m g with
                      addr := (cursorOf m g).addr
                        + 2 ^ ((cursorOf m g).width - (cursorOf m g).maskLen) }
                  else m.currentV6
                freeNets := aset (cursorOf m g) false m.freeNets }))) := by
  have general1 : ∀ (m : networkList) (g : Bool) (k : Cidr),
      findFreeNet g m.freeNets = some k →
        (k, true) ∈ m.freeNets ∧ k.isV6 = g ∧
        ReserveNext m g = some (k, { m with freeNets := aset k false m.freeNets }) := by
    intro m g k hk
    obtain ⟨hmem, hfam⟩ := findFreeNet_eq_some hk
    exact ⟨hmem, hfam, by simp [ReserveNext, hk]⟩
  have general2 : ∀ (m : networkList) (g : Bool),
      findFreeNet g m.freeNets = none →
        ReserveNext m g = none ∨
        (nextSubnet (cursorOf m g) =
           some { cursorOf m g with
                    addr := (cursorOf m g).addr
                      + 2 ^ ((cursorOf m g).width - (cursorOf m g).maskLen) } ∧
         ReserveNext m g =
           some (cursorOf m g,
             { currentV4 := if g then m.currentV4 else
                 { cursorOf m g with
                     addr := (cursorOf m g).addr
                       + 2 ^ ((cursorOf m g).width - (cursorOf m g).maskLen) }
               currentV6 := if g then
                 { cursorOf m g with
                     addr := (cursorOf m g).addr
                       + 2 ^ ((cursorOf m g).width - (cursorOf m g).maskLen) }
                 else m.currentV6
               freeNets := aset (cursorOf m g) false m.freeNets })) := by
    intro m g hn
    cases g with
    | false =>
      by_cases hov : m.currentV4.addr
          + 2 * 2 ^ (m.currentV4.width - m.currentV4.maskLen) ≤ 2 ^ m.currentV4.width
      · right
        refine ⟨by simp [cursorOf, nextSubnet, hov], ?_⟩
        simp [ReserveNext, hn, cursorOf, nextSubnet, hov]
      · left
        simp [ReserveNext, hn, cursorOf, nextSubnet, hov]
    | true =>
      by_cases hov : m.currentV6.addr
          + 2 * 2 ^ (m.currentV6.width - m.currentV6.maskLen) ≤ 2 ^ m.currentV6.width
      · right
        refine ⟨by simp [cursorOf, nextSubnet, hov], ?_⟩
        simp [ReserveNext, hn, cursorOf, nextSubnet, hov]
      · left
        simp [ReserveNext, hn, cursorOf, nextSubnet, hov]
  refine ⟨?_, general1, general2⟩
  -- the round trip itself
  have hfindn : findFreeNet f n.freeNets = none := (findFreeNet_eq_none_iff f n.freeNets).2 hnone
  have hxfam : x.isV6 = f ∧ x = cursorOf n f ∧ n1.freeNets = aset x false n.freeNets ∧
      n1.currentV4.isV6 = false ∧ n1.currentV6.isV6 = true := by
    simp only [ReserveNext, hfindn] at hres
    rcases hns : nextSubnet (cursorOf n f) with _ | next
    · rw [show (if f then n.currentV6 else n.currentV4) = cursorOf n f from rfl, hns] at hres
      simp at hres
    · rw [show (if f then n.currentV6 else n.currentV4) = cursorOf n f from rfl, hns] at hres
      simp only [Option.some.injEq, Prod.mk.injEq] at hres
      obtain ⟨hx, hn1⟩ := hres
      have hnextfam : next.isV6 = (cursorOf n f).isV6 := by
        simp only [nextSubnet] at hns
        split at hns
        · simp only [Option.some.injEq] at hns
          rw [← hns]
        · exact absurd hns (by simp)
      have hcfam : (cursorOf n f).isV6 = f := by
        cases f <;> simp [cursorOf, hv4, hv6]
      subst hx
      refine ⟨hcfam, rfl, ?_, ?_, ?_⟩ <;> rw [← hn1]
      · cases f <;> simp [hnextfam, hcfam, hv4]
      · cases f <;> simp [hnextfam, hcfam, hv6]
  obtain ⟨hxfam', hxcur, hn1free, hn1v4, hn1v6⟩ := hxfam
  have hfree2 : (Free n1 (some x)).freeNets = aset x true n.freeNets := by
    simp [Free, hn1free, aset_aset_same]
  have hfind2 : findFreeNet f (Free n1 (some x)).freeNets = some x := by
    rw [hfree2]
    exact findFreeNet_aset_true hfindn hxfam'
  refine ⟨{ Free n1 (some x) with
            freeNets := aset x false (Free n1 (some x)).freeNets }, ?_, ?_, ?_, ?_⟩
  · simp [ReserveNext, hfind2]
  · simp [cursorOf, Free]
  · simp [Free]
  · simp [Free]

/-- `10.224.0.0/24`, the default `--first-subnet`. -/
def exV4Base : Cidr := ⟨false, 183500800, 24⟩

/-- A fresh allocator over `10.224.0.0/24` and `fd62:a80c:412::/64`
(the v6 address abstracted to network number 0 of its /64 range). -/
def exList : networkList := NewNetworkList exV4Base ⟨true, 0, 64⟩

/-- The allocator state after the first `ReserveNext(false)` on `exList`. -/
def exList1 : networkList :=
  ⟨⟨false, 183501056, 24⟩, ⟨true, 0, 64⟩, [(exV4Base, false)]⟩

theorem reserveNext_free_reserveNext_roundtrip_witness :
    exList.currentV4.isV6 = false ∧ exList.currentV6.isV6 = true ∧
    (∀ kv ∈ exList.freeNets, kv.2 = true → kv.1.isV6 ≠ false) ∧
    ReserveNext exList false = some (exV4Base, exList1) ∧
    (∃ n3, ReserveNext (Free exList1 (some exV4Base)) false = some (exV4Base, n3) ∧
       cursorOf n3 false = cursorOf exList1 false ∧
       n3.currentV4 = exList1.currentV4 ∧ n3.currentV6 = exList1.currentV6) :=
  ⟨rfl, rfl, by simp [exList, NewNetworkList], by decide,
   (reserveNext_free_reserveNext exList false exV4Base exList1 rfl rfl
     (by simp [exList, NewNetworkList]) (by decide)).1⟩

/-! ## Core data model (`vmshed.go`, `test.go`, `vm.go`) -/

/-- `virterNet` from `vmshed.go`. -/
structure virterNet where
  ForwardMode : String
  IPv6 : Bool
  DHCP : Bool
  Domain : String
deriving DecidableEq, Repr

/-- `vm` from `vm.go`.  Only the fields that the verified functions consult
are modelled; the purely pass-through runtime fields (`Values`, `Memory`,
`VCPUs`, `BootCap`, `Disks`, `UserName`) are omitted. -/
structure vm where
  Name : String
  BaseImage : String
  VMTags : List String
deriving DecidableEq, Repr

/-- `vm.ID()` from `vm.go`. -/
def vm.ID (v : vm) : String := if v.Name ≠ "" then v.Name else v.BaseImage

/-- `variant` from `vmshed.go`. -/
structure variant where
  Name : String
  Variables : List (String × String)
  IPv6 : Bool
  VMTags : List String
deriving DecidableEq, Repr

/-- `test` from `test.go`. -/
structure test where
  VMCount : List ℕ
  VMTags : List String
  SameVMs : Bool
  NeedAllPlatforms : Bool
  Variants : List String
  Networks : List virterNet
deriving DecidableEq, Repr

/-- `testRun` from `test.go`. -/
structure testRun where
  testName : String
  testID : String
  outDir : String
  vms : List vm
  networks : List virterNet
  variant : variant
deriving DecidableEq, Repr

/-- `testResult` from `test.go` (the two log buffers are not modelled). -/
structure testResult where
  status : TestStatus
  err : Option GoErr
  execTime : ℕ
deriving DecidableEq, Repr

/-! ## Subprocess runner error discipline (`exec.go`: `cmdStderrTerm`) -/

/-- The outcomes of the fallible steps inside one `cmdStderrTerm` invocation:
the child's own error (`cmdRunTerm`), and the results of the log/metadata
writing steps, each `none` for success. -/
structure ExecEnv where
  childErr : Option GoErr
  mkdirStderrErr : Option GoErr
  stderrWriteErr : Option GoErr
  metaPathSet : Bool
  mkdirMetaErr : Option GoErr
  jsonMarshalErr : Option GoErr
  metaWriteErr : Option GoErr
deriving DecidableEq, Repr

/-- `cmdStderrTerm` from `exec.go`, as a function of its step outcomes:
each failing write step is returned immediately (logging, not returning, the
original child error); only if all writes succeed is the child's own error
returned. -/
def cmdStderrTerm (e : ExecEnv) : Option GoErr :=
  match e.mkdirStderrErr with
  | some mkdirErr => some mkdirErr
  | none =>
    match e.stderrWriteErr with
    | some stderrWriteErr => some stderrWriteErr
    | none =>
      if e.metaPathSet then
        match e.mkdirMetaErr with
        | some mkdirErr => some mkdirErr
        | none =>
          match e.jsonMarshalErr with
          | some jsonErr => some jsonErr
          | none =>
            match e.metaWriteErr with
            | some metaWriteErr => some metaWriteErr
            | none => e.childErr
      else e.childErr

/-- Specification-side helper: the first failure among the log/metadata
writing steps of `cmdStderrTerm`, in program order. -/
def firstWriteFailure (e : ExecEnv) : Option GoErr :=
  match e.mkdirStderrErr with
  | some m => some m
  | none =>
    match e.stderrWriteErr with
    | some w => some w
    | none =>
      if e.metaPathSet then
        match e.mkdirMetaErr with
        | some m => some m
        | none =>
          match e.jsonMarshalErr with
          | some j => some j
          | none => e.metaWriteErr
      else none

/-- A run of `cmdStderrTerm` in which the child failed with error `other 1`
and creating the stderr log directory failed with error `other 2`. -/
def exEnv : ExecEnv :=
  ⟨some (.other 1), some (.other 2), none, false, none, none, none⟩

/-- **C9 counterexample.** The claim says that when the child returned a
non-nil error `e` and a subsequent log-write failure occurs, the error
returned to the caller is still `e`.  In the code it is the opposite: the
write failure is returned and the child error is merely logged (the log
message itself reads "suppressing original error").  Concretely, with child
error `other 1` and a directory-creation failure `other 2`, the function
returns `other 2`, not the child error. -/
theorem cmdStderrTerm_not_preserving_child_error :
    exEnv.childErr = some (.other 1) ∧
    cmdStderrTerm exEnv = some (.other 2) ∧
    cmdStderrTerm exEnv ≠ exEnv.childErr := by
  refine ⟨rfl, rfl, ?_⟩
  decide

/-- **C9 (amended).** For every invocation of the subprocess runner, the error
returned to the caller is the first failure among the log/metadata writing
steps when one occurs — replacing the child's own error, which is only
logged — and the child's error exactly when all writing steps succeed. -/
theorem cmdStderrTerm_first_write_failure_wins (e : ExecEnv) :
    cmdStderrTerm e = match firstWriteFailure e with
      | some w => some w
      | none => e.childErr := by
  obtain ⟨c, m1, w1, mp, m2, j, w2⟩ := e
  rcases m1 with _ | e1 <;> rcases w1 with _ | e2 <;> rcases mp <;>
    rcases m2 with _ | e3 <;> rcases j with _ | e4 <;> rcases w2 with _ | e5 <;>
    simp [cmdStderrTerm, firstWriteFailure]

/-! ## Test and provisioning result classification (`test.go`, `vm.go`) -/

/-- The classification tail of `execTest` (`test.go`): given whether the
parent context is canceled (`ctx.Err() != nil`), whether the per-test child
context is done (`timeout := testCtx.Err() != nil`; this is the case whenever
the per-test deadline elapsed, and also when the parent was canceled), and
the error from running the test subprocess, produce the recorded status and
error. -/
def execTestClassify (ctxErr testCtxErr : Bool) (cmdErr : Option GoErr) :
    TestStatus × Option GoErr :=
  if ctxErr then (.canceled, some .canceled)
  else if testCtxErr then (.failedTimeout, some (GoErr.timeoutWrap cmdErr))
  else if cmdErr.isSome then (.failed, cmdErr)
  else (.success, none)

/-- The classification tail of `provisionImage` (`vm.go` lines 151–157):
given whether the parent context is canceled, whether the provisioning child
context is done, and the error from `cmdStderrTerm`, produce the returned
error. -/
def provisionImageClassify (ctxErr provisionCtxErr : Bool) (cmdErr : Option GoErr) :
    Option GoErr :=
  if ctxErr then some .canceled
  else if provisionCtxErr then some (GoErr.timeoutWrap cmdErr)
  else cmdErr

/-- **C4.** Cancellation wins over timeout, in both the test runner and the
provisioner: if the parent context is canceled when the test subprocess
finishes, the status is `Canceled` even if the per-test deadline also elapsed;
if the parent is not canceled but the per-test context is done (deadline
elapsed), the status is `FailedTimeout`; a cancellation is never classified as
a timeout.  `provisionImage` analogously returns the error `canceled` on
parent cancellation and a timeout-wrapped error when only its provisioning
deadline elapsed. -/
theorem cancellation_never_classified_as_timeout :
    (∀ (testCtxErr : Bool) (cmdErr : Option GoErr),
       (execTestClassify true testCtxErr cmdErr).1 = .canceled) ∧
    (∀ cmdErr : Option GoErr,
       (execTestClassify false true cmdErr).1 = .failedTimeout) ∧
    (∀ (testCtxErr : Bool) (cmdErr : Option GoErr),
       (execTestClassify true testCtxErr cmdErr).1 ≠ .failedTimeout) ∧
    (∀ (provisionCtxErr : Bool) (cmdErr : Option GoErr),
       provisionImageClassify true provisionCtxErr cmdErr = some .canceled) ∧
    (∀ cmdErr : Option GoErr,
       provisionImageClassify false true cmdErr = some (GoErr.timeoutWrap cmdErr)) := by
  refine ⟨?_, ?_, ?_, ?_, ?_⟩ <;> intros <;> simp [execTestClassify, provisionImageClassify]

/-! ## Summary table exit code (`vmshed.go`: `printSummaryTable`) -/

/-- The exit-code computation of `printSummaryTable` (`vmshed.go`): the code
starts at 0 and is set to 1 for every run whose result is missing from the
`results` map or carries a non-nil error. -/
def printSummaryExitCode (testRuns : List testRun) (results : List (String × testResult)) : ℕ :=
  testRuns.foldl (fun exitCode run =>
    match alookup run.testID results with
    | some result => if result.err = none then exitCode else 1
    | none => 1) 0

theorem printSummaryExitCode_foldl (testRuns : List testRun)
    (results : List (String × testResult)) (ec : ℕ) :
    testRuns.foldl (fun exitCode run =>
      match alookup run.testID results with
      | some result => if result.err = none then exitCode else 1
      | none => 1) ec = 0 ↔
    ec = 0 ∧ ∀ run ∈ testRuns, ∃ r, alookup run.testID results = some r ∧ r.err = none := by
  induction testRuns generalizing ec with
  | nil => simp
  | cons run rest ih =>
    simp only [List.foldl_cons, ih, List.mem_cons]
    rcases hl : alookup run.testID results with _ | r
    · simp only
      constructor
      · rintro ⟨h1, -⟩
        exact absurd h1 one_ne_zero
      · rintro ⟨-, h⟩
        obtain ⟨r, hr, -⟩ := h run (Or.inl rfl)
        rw [hl] at hr
        exact absurd hr (by simp)
    · by_cases he : r.err = none
      · simp only [if_pos he]
        constructor
        · rintro ⟨h1, h2⟩
          refine ⟨h1, ?_⟩
          rintro run' (rfl | hm)
          · exact ⟨r, hl, he⟩
          · exact h2 run' hm
        · rintro ⟨h1, h2⟩
          exact ⟨h1, fun run' hm => h2 run' (Or.inr hm)⟩
      · simp only [if_neg he]
        constructor
        · rintro ⟨h1, -⟩
          exact absurd h1 one_ne_zero
        · rintro ⟨-, h⟩
          obtain ⟨r', hr', he'⟩ := h run (Or.inl rfl)
          rw [hl] at hr'
          injection hr' with hr'
          exact absurd (hr' ▸ he') he

/-- **C5.** The summary-table computation returns exit code 0 if and only if
every run in the expanded plan has a recorded result with nil error (the
criterion the code uses for success, satisfied exactly by results whose
status reached `Success` without a late log-write failure); a run with no
recorded result (reported as `Skipped`) or with a non-nil error forces exit
code 1. -/
theorem printSummaryExitCode_zero_iff (testRuns : List testRun)
    (results : List (String × testResult)) :
    (printSummaryExitCode testRuns results = 0 ↔
       ∀ run ∈ testRuns, ∃ r, alookup run.testID results = some r ∧ r.err = none) ∧
    (∀ run ∈ testRuns,
       (alookup run.testID results = none ∨
        (∃ r, alookup run.testID results = some r ∧ r.err ≠ none)) →
       printSummaryExitCode testRuns results = 1) := by
  have h0 := printSummaryExitCode_foldl testRuns results 0
  constructor
  · rw [printSummaryExitCode, h0]
    simp
  · intro run hm hbad
    have hone : printSummaryExitCode testRuns results ≠ 0 := by
      rw [printSummaryExitCode]
      intro hz
      rw [h0] at hz
      obtain ⟨-, hall⟩ := hz
      obtain ⟨r, hr, he⟩ := hall run hm
      rcases hbad with hnone | ⟨r', hr', he'⟩
      · rw [hnone] at hr
        exact absurd hr (by simp)
      · rw [hr'] at hr
        injection hr with hr
        exact he' (hr ▸ he)
    -- the fold only ever keeps its accumulator or produces 1
    have hrange : ∀ (l : List testRun) (ec : ℕ),
        l.foldl (fun exitCode run =>
          match alookup run.testID results with
          | some result => if result.err = none then exitCode else 1
          | none => 1) ec = ec ∨
        l.foldl (fun exitCode run =>
          match alookup run.testID results with
          | some result => if result.err = none then exitCode else 1
          | none => 1) ec = 1 := by
      intro l
      induction l with
      | nil => simp
      | cons run' rest ih =>
        intro ec
        simp only [List.foldl_cons]
        rcases hl : alookup run'.testID results with _ | r
        · simpa using (ih 1).elim Or.inr Or.inr
        · by_cases he : r.err = none
          · simpa [he] using ih ec
          · simpa [he] using (ih 1).elim Or.inr Or.inr
    rcases hrange testRuns 0 with h | h
    · exact absurd h hone
    · exact h

/-! ## Run expansion (`vmshed.go`: `determineRunsForTest` and helpers) -/

/-- `containsString` from `vmshed.go`. -/
def containsString : List String → String → Bool
  | [], _ => false
  | a :: rest, e => if a = e then true else containsString rest e

/-- `containsAllStrings` from `vmshed.go`. -/
def containsAllStrings (values : List String) : List String → Bool
  | [] => true
  | e :: rest =>
    if containsString values e then containsAllStrings values rest else false

/-- `matchingVMTags` from `vmshed.go`. -/
def matchingVMTags (requiredVMTags : List String) : List vm → List vm
  | [] => []
  | v :: rest =>
    if containsAllStrings v.VMTags requiredVMTags then
      v :: matchingVMTags requiredVMTags rest
    else matchingVMTags requiredVMTags rest

/-- `repeatVM` from `vmshed.go`. -/
def repeatVM (v : vm) (count : ℕ) : List vm := List.replicate count v

/-- `testIDString` from `vm.go`. -/
def testIDString (t : String) (vmCount : ℕ) (variantName : String) (testIndex : ℕ) : String :=
  t ++ "-" ++ toString vmCount ++ "-" ++ variantName ++ "-" ++ toString testIndex

/-- `testConfig` from `vmshed.go` (`vmSpec` is represented by its `VMs` list,
the only part `determineRunsForTest` reads). -/
structure testConfig where
  testLogDir : String
  vmSpecVMs : List vm
  testName : String
  test : test
  repeats : ℕ
  networks : List virterNet
deriving Repr

/-- `newTestRun` from `vmshed.go`. -/
def newTestRun (cfg : testConfig) (tv : variant) (vms : List vm) (testIndex : ℕ) : testRun :=
  let testID := testIDString cfg.testName vms.length tv.Name testIndex
  { testName := cfg.testName
    testID := testID
    outDir := cfg.testLogDir ++ "/" ++ testID
    vms := vms
    networks := cfg.networks
    variant := tv }

/-- `randomVM` from `vmshed.go`.  The `*rand.Rand` generator is modelled by an
oracle `gen : ℕ → ℕ` giving the value of the `g`-th draw. -/
def randomVM (gen : ℕ → ℕ) (g : ℕ) (vms : List vm) : Except String vm :=
  if h : 0 < vms.length then .ok (vms.get ⟨gen g % vms.length, Nat.mod_lt _ h⟩)
  else .error "Unable to randomly choose VM from empty array"

/-- The inner `for i := 0; i < vmCount; i++` draw loop of
`determineRunsForTestVariant` (the independent-images branch). -/
def drawRandomVMs (gen : ℕ → ℕ) (availableVMs : List vm) :
    ℕ → ℕ → List vm → Except String (List vm × ℕ)
  | 0, g, acc => .ok (acc, g)
  | count + 1, g, acc =>
    match randomVM gen g availableVMs with
    | .error e => .error e
    | .ok v => drawRandomVMs gen availableVMs count (g + 1) (acc ++ [v])

/-- The `for repeatCounter ...` loop body of `determineRunsForTestVariant`
(`vmshed.go`), recursing on the number of repeats left, carrying the
accumulated runs and the draw counter. -/
def determineRunsForTestVariantGo (cfg : testConfig) (gen : ℕ → ℕ) (vmCount : ℕ)
    (testVariant : variant) (availableVMs : List vm) :
    ℕ → List testRun → ℕ → Except String (List testRun × ℕ)
  | 0, runs, g => .ok (runs, g)
  | repeatsLeft + 1, runs, g =>
    if cfg.test.NeedAllPlatforms then
      determineRunsForTestVariantGo cfg gen vmCount testVariant availableVMs repeatsLeft
        (availableVMs.foldl (fun rs v =>
          rs ++ [newTestRun cfg testVariant (repeatVM v vmCount) rs.length]) runs) g
    else if cfg.test.SameVMs then
      match randomVM gen g availableVMs with
      | .error e => .error e
      | .ok v =>
        determineRunsForTestVariantGo cfg gen vmCount testVariant availableVMs repeatsLeft
          (runs ++ [newTestRun cfg testVariant (repeatVM v vmCount) runs.length]) (g + 1)
    else
      match drawRandomVMs gen availableVMs vmCount g [] with
      | .error e => .error e
      | .ok (vms, gNew) =>
        determineRunsForTestVariantGo cfg gen vmCount testVariant availableVMs repeatsLeft
          (runs ++ [newTestRun cfg testVariant vms runs.length]) gNew

/-- `determineRunsForTestVariant` from `vmshed.go`. -/
def determineRunsForTestVariant (cfg : testConfig) (gen : ℕ → ℕ) (vmCount : ℕ)
    (testVariant : variant) (availableVMs : List vm) (g : ℕ) :
    Except String (List testRun × ℕ) :=
  determineRunsForTestVariantGo cfg gen vmCount testVariant availableVMs cfg.repeats [] g

/-- The `for _, vmCount := range config.test.VMCount` loop of
`determineRunsForTest`. -/
def determineRunsForTestCounts (cfg : testConfig) (gen : ℕ → ℕ)
    (testVariant : variant) (availableVMs : List vm) :
    List ℕ → List testRun → ℕ → Except String (List testRun × ℕ)
  | [], acc, g => .ok (acc, g)
  | vmCount :: rest, acc, g =>
    match determineRunsForTestVariant cfg gen vmCount testVariant availableVMs g with
    | .error e => .error e
    | .ok (variantRuns, gNew) =>
      determineRunsForTestCounts cfg gen testVariant availableVMs rest (acc ++ variantRuns) gNew

/-- The `for _, variant := range variants` loop of `determineRunsForTest`
(`vmshed.go`): variants not selected by the test are skipped; variants with an
empty matching VM set are skipped with a diagnostic (not an error); otherwise
runs are emitted for every VM count. -/
def determineRunsForTestGo (cfg : testConfig) (gen : ℕ → ℕ) :
    List variant → List testRun → ℕ → Except String (List testRun × ℕ)
  | [], acc, g => .ok (acc, g)
  | tv :: rest, acc, g =>
    if cfg.test.Variants.length > 0 && !(containsString cfg.test.Variants tv.Name) then
      determineRunsForTestGo cfg gen rest acc g
    else
      let variantVMs := matchingVMTags tv.VMTags cfg.vmSpecVMs
      let availableVMs := matchingVMTags cfg.test.VMTags variantVMs
      if availableVMs.length = 0 then
        determineRunsForTestGo cfg gen rest acc g
      else
        match determineRunsForTestCounts cfg gen tv availableVMs cfg.test.VMCount acc g with
        | .error e => .error e
        | .ok (acc2, g2) => determineRunsForTestGo cfg gen rest acc2 g2

/-- `determineRunsForTest` from `vmshed.go`. -/
def determineRunsForTest (cfg : testConfig) (gen : ℕ → ℕ) (variants : List variant)
    (g : ℕ) : Except String (List testRun × ℕ) :=
  determineRunsForTestGo cfg gen variants [] g

theorem containsString_iff (l : List String) (e : String) :
    containsString l e = true ↔ e ∈ l := by
  induction l with
  | nil => simp [containsString]
  | cons a rest ih =>
    by_cases h : a = e
    · simp [containsString, h]
    · simp only [containsString, if_neg h, ih, List.mem_cons]
      constructor
      · exact Or.inr
      · rintro (rfl | hm)
        · exact absurd rfl h
        · exact hm

theorem containsAllStrings_iff (values required : List String) :
    containsAllStrings values required = true ↔ ∀ t ∈ required, t ∈ values := by
  induction required with
  | nil => simp [containsAllStrings]
  | cons e rest ih =>
    by_cases h : containsString values e = true
    · have he : e ∈ values := (containsString_iff values e).1 h
      simp only [containsAllStrings, if_pos h, ih, List.forall_mem_cons]
      simp [he]
    · simp only [containsAllStrings, if_neg h]
      constructor
      · intro hf
        exact absurd hf (by simp)
      · intro hall
        exact absurd ((containsString_iff values e).2 (hall e (List.mem_cons_self _ _))) h

theorem mem_matchingVMTags (required : List String) (vms : List vm) (v : vm) :
    v ∈ matchingVMTags required vms ↔ v ∈ vms ∧ ∀ t ∈ required, t ∈ v.VMTags := by
  induction vms with
  | nil => simp [matchingVMTags]
  | cons w rest ih =>
    by_cases h : containsAllStrings w.VMTags required = true
    · simp only [matchingVMTags, if_pos h, List.mem_cons, ih]
      constructor
      · rintro (rfl | ⟨hm, ht⟩)
        · exact ⟨Or.inl rfl, (containsAllStrings_iff _ _).1 h⟩
        · exact ⟨Or.inr hm, ht⟩
      · rintro ⟨(rfl | hm), ht⟩
        · exact Or.inl rfl
        · exact Or.inr ⟨hm, ht⟩
    · simp only [matchingVMTags, if_neg h, ih]
      constructor
      · rintro ⟨hm, ht⟩
        exact ⟨List.mem_cons_of_mem _ hm, ht⟩
      · rintro ⟨hm, ht⟩
        rcases List.mem_cons.1 hm with rfl | hm'
        · exact absurd ((containsAllStrings_iff _ _).2 ht) h
        · exact ⟨hm', ht⟩

theorem needAllPlatforms_foldl_vms (cfg : testConfig) (tv : variant) (vmCount : ℕ)
    (availableVMs : List vm) :
    ∀ runs : List testRun,
      (availableVMs.foldl (fun rs v =>
        rs ++ [newTestRun cfg tv (repeatVM v vmCount) rs.length]) runs).map (fun r => r.vms) =
      runs.map (fun r => r.vms) ++ availableVMs.map (fun v => repeatVM v vmCount) := by
  induction availableVMs with
  | nil => simp
  | cons v rest ih =>
    intro runs
    simp only [List.foldl_cons, ih, List.map_append, List.map_cons]
    simp [newTestRun]

theorem needAllPlatforms_go_vms (cfg : testConfig) (gen : ℕ → ℕ) (vmCount : ℕ)
    (tv : variant) (availableVMs : List vm) (hNAP : cfg.test.NeedAllPlatforms = true) :
    ∀ (repeatsLeft : ℕ) (runs : List testRun) (g : ℕ),
      ∃ runs2,
        determineRunsForTestVariantGo cfg gen vmCount tv availableVMs repeatsLeft runs g =
          .ok (runs2, g) ∧
        runs2.map (fun r => r.vms) = runs.map (fun r => r.vms) ++
          (List.replicate repeatsLeft (availableVMs.map (fun v => repeatVM v vmCount))).flatten := by
  intro repeatsLeft
  induction repeatsLeft with
  | zero => intro runs g; exact ⟨runs, rfl, by simp⟩
  | succ r ih =>
    intro runs g
    obtain ⟨runs2, heq, hmap⟩ := ih
      (availableVMs.foldl (fun rs v =>
        rs ++ [newTestRun cfg tv (repeatVM v vmCount) rs.length]) runs) g
    refine ⟨runs2, ?_, ?_⟩
    · simp only [determineRunsForTestVariantGo, if_pos hNAP]
      exact heq
    · rw [hmap, needAllPlatforms_foldl_vms]
      simp [List.replicate_succ, List.append_assoc]

theorem determineRunsForTestGo_skip (cfg : testConfig) (gen : ℕ → ℕ) (tvEmpty : variant)
    (hEmpty : matchingVMTags cfg.test.VMTags (matchingVMTags tvEmpty.VMTags cfg.vmSpecVMs) = []) :
    ∀ (pre post : List variant) (acc : List testRun) (g : ℕ),
      determineRunsForTestGo cfg gen (pre ++ tvEmpty :: post) acc g =
      determineRunsForTestGo cfg gen (pre ++ post) acc g := by
  have hstep : ∀ (post : List variant) (acc : List testRun) (g : ℕ),
      determineRunsForTestGo cfg gen (tvEmpty :: post) acc g =
      determineRunsForTestGo cfg gen post acc g := by
    intro post acc g
    by_cases hf : (cfg.test.Variants.length > 0 &&
        !(containsString cfg.test.Variants tvEmpty.Name)) = true
    · simp [determineRunsForTestGo, hf]
    · simp [determineRunsForTestGo, hf, hEmpty]
  intro pre
  induction pre with
  | nil => exact hstep
  | cons tv0 pre ih =>
    intro post acc g
    simp only [List.cons_append, determineRunsForTestGo]
    by_cases hf : (cfg.test.Variants.length > 0 &&
        !(containsString cfg.test.Variants tv0.Name)) = true
    · simp only [if_pos hf]
      exact ih post acc g
    · simp only [if_neg hf]
      by_cases hempty0 :
          (matchingVMTags cfg.test.VMTags (matchingVMTags tv0.VMTags cfg.vmSpecVMs)).length = 0
      · simp only [if_pos hempty0]
        exact ih post acc g
      · simp only [if_neg hempty0]
        rcases hc : determineRunsForTestCounts cfg gen tv0
            (matchingVMTags cfg.test.VMTags (matchingVMTags tv0.VMTags cfg.vmSpecVMs))
            cfg.test.VMCount acc g with e | ⟨acc2, g2⟩
        · rfl
        · exact ih post acc2 g2

/-- **C8.** Base-image admissibility and `needallplatforms` expansion: a VM
descriptor survives the two `matchingVMTags` filters exactly when its
`vm_tags` is a superset of the combined filter set (the variant's tags
together with the test's tags); with `needallplatforms=true` each repeat emits
exactly one run per matching image — every VM of that run using that image —
and the RNG is never consulted; a variant whose matching set is empty is
skipped (removing it from the variant list does not change the expansion at
all), producing no error. -/
theorem determineRunsForTest_admissibility (cfg : testConfig) (gen : ℕ → ℕ)
    (vmCount : ℕ) (tv tvEmpty : variant) (availableVMs : List vm) (g : ℕ)
    (pre post : List variant)
    (hNAP : cfg.test.NeedAllPlatforms = true)
    (hEmpty : matchingVMTags cfg.test.VMTags (matchingVMTags tvEmpty.VMTags cfg.vmSpecVMs) = []) :
    (∀ (variantTags testTags : List String) (vms : List vm) (v : vm),
       v ∈ matchingVMTags testTags (matchingVMTags variantTags vms) ↔
         (v ∈ vms ∧ ∀ t ∈ variantTags ++ testTags, t ∈ v.VMTags)) ∧
    (∃ runs, determineRunsForTestVariant cfg gen vmCount tv availableVMs g = .ok (runs, g) ∧
       runs.map (fun r => r.vms) =
         (List.replicate cfg.repeats (availableVMs.map (fun v => repeatVM v vmCount))).flatten ∧
       runs.length = cfg.repeats * availableVMs.length) ∧
    determineRunsForTest cfg gen (pre ++ tvEmpty :: post) g =
      determineRunsForTest cfg gen (pre ++ post) g := by
  refine ⟨?_, ?_, ?_⟩
  · intro variantTags testTags vms v
    rw [mem_matchingVMTags, mem_matchingVMTags]
    constructor
    · rintro ⟨⟨hm, hvt⟩, htt⟩
      refine ⟨hm, ?_⟩
      intro t ht
      rcases List.mem_append.1 ht with h | h
      · exact hvt t h
      · exact htt t h
    · rintro ⟨hm, hall⟩
      exact ⟨⟨hm, fun t ht => hall t (List.mem_append.2 (Or.inl ht))⟩,
        fun t ht => hall t (List.mem_append.2 (Or.inr ht))⟩
  · obtain ⟨runs, heq, hmap⟩ :=
      needAllPlatforms_go_vms cfg gen vmCount tv availableVMs hNAP cfg.repeats [] g
    refine ⟨runs, heq, by simpa using hmap, ?_⟩
    have := congrArg List.length hmap
    simpa [List.length_flatten, Function.comp, mul_comm] using this
  · exact determineRunsForTestGo_skip cfg gen tvEmpty hEmpty pre post [] g

/-! ## Scheduler state (`network_list.go`, scheduler part) -/

/-- `networkStage` from the scheduler. -/
inductive networkStage
  | add | ready | busy | error
deriving DecidableEq, Repr

/-- `imageStage` from the scheduler. -/
inductive imageStage
  | none | provision | ready | error
deriving DecidableEq, Repr

/-- `runStage` from the scheduler. -/
inductive runStage
  | new | exec | done
deriving DecidableEq, Repr

/-- The network name string `"vmshed-%d-%s"` produced by
`generateNetworkName`: the format is injective in the index and in the
access/extra tag, so it is modelled as a structure.  The empty string
returned by `findReadyNetwork` on failure is modelled as `none`. -/
structure NName where
  idx : ℕ
  access : Bool
deriving DecidableEq, Repr

/-- `generateNetworkName` from the scheduler. -/
def generateNetworkName (id : ℕ) (access : Bool) : NName := ⟨id, access⟩

/-- `networkState` from the scheduler. -/
structure networkState where
  network : virterNet
  isAccess : Bool
  stage : networkStage
deriving DecidableEq, Repr

/-- `suiteState` from the scheduler.  The `networks` map is an association
list so that `len(state.networks)` and insertion order are faithful. -/
structure suiteState where
  networks : List (NName × networkState)
  baseImage : List (String × imageStage)
  imageStage : List (String × imageStage)
  runStage : List (String × runStage)
  runResults : List (String × testResult)
  freeIDs : Finset ℕ
  freeNets : networkList
  errors : List GoErr

/-- `accessNetwork` from `network.go`. -/
def accessNetwork (ipv6 : Bool) : virterNet :=
  { Domain := "test", ForwardMode := "nat", DHCP := true, IPv6 := ipv6 }

/-- The body of one iteration of the `findReadyNetwork` scan: all the checks
applied to the generated name of index `i`. -/
def tryReadyNetworkAt (networks : List (NName × networkState)) (exclude : List NName)
    (network : virterNet) (access : Bool) (i : ℕ) : Option NName :=
  let networkName := generateNetworkName i access
  match alookup networkName networks with
  | Option.none => none
  | some ns =>
    if ns.stage ≠ networkStage.ready then none
    else if networkName ∈ exclude then none
    else if ns.network.ForwardMode ≠ network.ForwardMode ∨ ns.network.DHCP ≠ network.DHCP ∨
            ns.network.Domain ≠ network.Domain ∨ ns.network.IPv6 ≠ network.IPv6 then none
    else if ns.isAccess ≠ access then none
    else some networkName

/-- The `for i := 0; i < len(state.networks); i++` loop of
`findReadyNetwork`. -/
def findReadyNetworkGo (networks : List (NName × networkState)) (exclude : List NName)
    (network : virterNet) (access : Bool) : List ℕ → Option NName
  | [] => none
  | i :: rest =>
    match tryReadyNetworkAt networks exclude network access i with
    | some nm => some nm
    | Option.none => findReadyNetworkGo networks exclude network access rest

/-- `findReadyNetwork` from the scheduler.  The `exclude` map is modelled by
the list of names marked used (the Go code also marks the empty string, which
can never match a generated name and is therefore dropped). -/
def findReadyNetwork (s : suiteState) (exclude : List NName) (network : virterNet)
    (access : Bool) : Option NName :=
  findReadyNetworkGo s.networks exclude network access (List.range s.networks.length)

/-- The loop of `findExtraNetworks`, carrying the used-name set. -/
def findExtraNetworksGo (s : suiteState) :
    List virterNet → List NName → List (Option NName) × List virterNet
  | [], _ => ([], [])
  | network :: rest, used =>
    let nm? := findReadyNetwork s used network false
    let used2 := match nm? with
      | some nm => used ++ [nm]
      | Option.none => used
    let p := findExtraNetworksGo s rest used2
    (nm? :: p.1,
     (match nm? with
      | Option.none => [network]
      | some _ => []) ++ p.2)

/-- `findExtraNetworks` from the scheduler: the (possibly missing) names of
the ready networks for the run's extra network specs, and the specs that are
not yet ready. -/
def findExtraNetworks (s : suiteState) (run : testRun) :
    List (Option NName) × List virterNet :=
  findExtraNetworksGo s run.networks []

/-- `allImagesReady` from the scheduler. -/
def allImagesReady (s : suiteState) (run : testRun) : Bool :=
  run.vms.all (fun v =>
    decide (alookup v.BaseImage s.baseImage = some imageStage.ready) &&
    decide (alookup (vm.ID v) s.imageStage = some imageStage.ready))

/-- `allNetworksReady` from the scheduler. -/
def allNetworksReady (s : suiteState) (run : testRun) : Bool :=
  match findReadyNetwork s [] (accessNetwork run.variant.IPv6) true with
  | Option.none => false
  | some _ => decide ((findExtraNetworks s run).2 = [])

/-- `countNonTestIDs` from the scheduler (Go `int`, so `ℤ`). -/
def countNonTestIDs (nrVMs : ℕ) (testRuns : List testRun) (s : suiteState) : ℤ :=
  testRuns.foldl (fun acc run =>
    if alookup run.testID s.runStage = some runStage.exec then acc - run.vms.length
    else acc) (nrVMs : ℤ)

/-- `runBetter` from the scheduler: whether `b` is better than the
(potentially absent) current best `a`. -/
def runBetter (s : suiteState) (a : Option testRun) (b : testRun) : Bool :=
  match a with
  | Option.none => true
  | some a =>
    if b.vms.length < a.vms.length then false
    else if b.vms.length > a.vms.length then true
    else if allImagesReady s a && allNetworksReady s a then false
    else if allImagesReady s b && allNetworksReady s b then true
    else false

/-- The best-run selection loop of `chooseNextAction`: skip runs not in
`New`, skip runs whose VM count exceeds `nonTestIDs`, and keep the better of
the current best and the scanned run. -/
def chooseBestRunGo (s : suiteState) (nonTestIDs : ℤ) :
    List testRun → Option testRun → Option testRun
  | [], best => best
  | run :: rest, best =>
    if alookup run.testID s.runStage ≠ some runStage.new then
      chooseBestRunGo s nonTestIDs rest best
    else if nonTestIDs < (run.vms.length : ℤ) then
      chooseBestRunGo s nonTestIDs rest best
    else if runBetter s best run then
      chooseBestRunGo s nonTestIDs rest (some run)
    else chooseBestRunGo s nonTestIDs rest best

/-- The `bestRun` computed by `chooseNextAction`. -/
def chooseBestRun (nrVMs : ℕ) (testRuns : List testRun) (s : suiteState) : Option testRun :=
  chooseBestRunGo s (countNonTestIDs nrVMs testRuns s) testRuns none

/-- Specification-side abbreviation: a run all of whose images and networks
are ready. -/
def readyRun (s : suiteState) (r : testRun) : Bool :=
  allImagesReady s r && allNetworksReady s r

/-- Specification-side: the runs `chooseNextAction` considers — still in
stage `New`, with a VM count not exceeding the IDs not held by executing
tests. -/
def eligibleRun (s : suiteState) (nonTestIDs : ℤ) (r : testRun) : Prop :=
  alookup r.testID s.runStage = some runStage.new ∧ (r.vms.length : ℤ) ≤ nonTestIDs

theorem runBetter_some_iff (s : suiteState) (a b : testRun) :
    runBetter s (some a) b = true ↔
      (a.vms.length < b.vms.length ∨
       (b.vms.length = a.vms.length ∧ readyRun s a = false ∧ readyRun s b = true)) := by
  simp only [runBetter, readyRun]
  by_cases h1 : b.vms.length < a.vms.length
  · simp only [if_pos h1]
    constructor
    · intro hf
      exact absurd hf (by simp)
    · rintro (h | ⟨he, -⟩) <;> omega
  · simp only [if_neg h1]
    by_cases h2 : b.vms.length > a.vms.length
    · simp only [if_pos h2]
      constructor
      · intro _
        exact Or.inl h2
      · intro _
        trivial
    · simp only [if_neg h2]
      have he : b.vms.length = a.vms.length := by omega
      by_cases h3 : (allImagesReady s a && allNetworksReady s a) = true
      · simp only [if_pos h3]
        constructor
        · intro hf
          exact absurd hf (by simp)
        · rintro (h | ⟨-, hra, -⟩)
          · omega
          · rw [h3] at hra
            exact absurd hra (by simp)
      · simp only [if_neg h3]
        simp only [Bool.not_eq_true] at h3
        by_cases h4 : (allImagesReady s b && allNetworksReady s b) = true
        · simp only [if_pos h4]
          constructor
          · intro _
            exact Or.inr ⟨he, h3, h4⟩
          · intro _
            trivial
        · simp only [if_neg h4, Bool.not_eq_true] at *
          constructor
          · intro hf
            exact absurd hf (by simp)
          · rintro (h | ⟨-, -, hrb⟩)
            · omega
            · rw [h4] at hrb
              exact absurd hrb (by simp)

theorem runBetter_self_false (s : suiteState) (r : testRun) :
    runBetter s (some r) r = false := by
  rw [Bool.eq_false_iff]
  intro h
  rcases (runBetter_some_iff s r r).1 h with h | ⟨-, hra, hrb⟩
  · omega
  · rw [hra] at hrb
    exact absurd hrb (by simp)

theorem runBetter_false_of (s : suiteState) (z x y : testRun)
    (hzx : runBetter s (some z) x = true) (hzy : runBetter s (some z) y = false) :
    runBetter s (some x) y = false := by
  rw [Bool.eq_false_iff] at hzy ⊢
  rw [runBetter_some_iff] at hzx
  intro hxy
  rw [runBetter_some_iff] at hxy
  apply hzy
  rw [runBetter_some_iff]
  rcases hzx with h | ⟨he, hza, hxr⟩ <;> rcases hxy with h' | ⟨he', hxa, hyr⟩
  · exact Or.inl (by omega)
  · exact Or.inl (by omega)
  · exact Or.inl (by omega)
  · rw [hxr] at hxa
    exact absurd hxa (by simp)

theorem chooseBestRunGo_invariant (s : suiteState) (n : ℤ) :
    ∀ (l : List testRun) (best : Option testRun),
      (chooseBestRunGo s n l best = none →
        best = none ∧ ∀ b ∈ l, ¬eligibleRun s n b) ∧
      (∀ r, chooseBestRunGo s n l best = some r →
        ((best = some r ∨ (r ∈ l ∧ eligibleRun s n r)) ∧
         (∀ b, runBetter s best b = false → runBetter s (some r) b = false) ∧
         (∀ b ∈ l, eligibleRun s n b → runBetter s (some r) b = false))) := by
  intro l
  induction l with
  | nil =>
    intro best
    refine ⟨fun h => ⟨h, by simp⟩, fun r hr => ⟨Or.inl hr, ?_, by simp⟩⟩
    intro b hb
    rw [chooseBestRunGo] at hr
    rw [hr] at hb
    exact hb
  | cons run rest ih =>
    intro best
    by_cases hg1 : alookup run.testID s.runStage ≠ some runStage.new
    · -- run is not in stage New: skipped
      have hstep : chooseBestRunGo s n (run :: rest) best = chooseBestRunGo s n rest best := by
        simp [chooseBestRunGo, hg1]
      have hnelig : ¬eligibleRun s n run := fun h => hg1 h.1
      rw [hstep]
      refine ⟨fun h => ⟨((ih best).1 h).1, ?_⟩, fun r hr => ?_⟩
      · intro b hb
        rcases List.mem_cons.1 hb with rfl | hb'
        · exact hnelig
        · exact ((ih best).1 h).2 b hb'
      · obtain ⟨hor, hdom, hscan⟩ := (ih best).2 r hr
        refine ⟨?_, hdom, ?_⟩
        · rcases hor with h | ⟨hm, he⟩
          · exact Or.inl h
          · exact Or.inr ⟨List.mem_cons_of_mem _ hm, he⟩
        · intro b hb he
          rcases List.mem_cons.1 hb with rfl | hb'
          · exact absurd he hnelig
          · exact hscan b hb' he
    · push_neg at hg1
      by_cases hg2 : n < (run.vms.length : ℤ)
      · -- run needs more IDs than available: skipped
        have hstep : chooseBestRunGo s n (run :: rest) best = chooseBestRunGo s n rest best := by
          simp [chooseBestRunGo, hg1, hg2]
        have hnelig : ¬eligibleRun s n run := fun h => absurd h.2 (not_le.2 hg2)
        rw [hstep]
        refine ⟨fun h => ⟨((ih best).1 h).1, ?_⟩, fun r hr => ?_⟩
        · intro b hb
          rcases List.mem_cons.1 hb with rfl | hb'
          · exact hnelig
          · exact ((ih best).1 h).2 b hb'
        · obtain ⟨hor, hdom, hscan⟩ := (ih best).2 r hr
          refine ⟨?_, hdom, ?_⟩
          · rcases hor with h | ⟨hm, he⟩
            · exact Or.inl h
            · exact Or.inr ⟨List.mem_cons_of_mem _ hm, he⟩
          · intro b hb he
            rcases List.mem_cons.1 hb with rfl | hb'
            · exact absurd he hnelig
            · exact hscan b hb' he
      · have helig : eligibleRun s n run := ⟨hg1, not_lt.1 hg2⟩
        by_cases hg3 : runBetter s best run = true
        · -- run becomes the new best
          have hstep : chooseBestRunGo s n (run :: rest) best =
              chooseBestRunGo s n rest (some run) := by
            simp [chooseBestRunGo, hg1, hg2, hg3]
          rw [hstep]
          constructor
          · intro h
            exact absurd ((ih (some run)).1 h).1 (by simp)
          · intro r hr
            obtain ⟨hor, hdom, hscan⟩ := (ih (some run)).2 r hr
            have hdom' : ∀ b, runBetter s best b = false → runBetter s (some r) b = false := by
              intro b hb
              rcases hbest : best with _ | z
              · rw [hbest] at hb
                simp [runBetter] at hb
              · rw [hbest] at hb hg3
                exact hdom b (runBetter_false_of s z run b hg3 hb)
            refine ⟨?_, hdom', ?_⟩
            · rcases hor with h | ⟨hm, he⟩
              · injection h with h
                exact Or.inr ⟨h ▸ List.mem_cons_self _ _, h ▸ helig⟩
              · exact Or.inr ⟨List.mem_cons_of_mem _ hm, he⟩
            · intro b hb he
              rcases List.mem_cons.1 hb with rfl | hb'
              · exact hdom b (runBetter_self_false s b)
              · exact hscan b hb' he
        · -- current best is kept
          have hg3' : runBetter s best run = false := by
            rw [Bool.eq_false_iff]
            exact hg3
          have hstep : chooseBestRunGo s n (run :: rest) best =
              chooseBestRunGo s n rest best := by
            simp [chooseBestRunGo, hg1, hg2, hg3']
          rw [hstep]
          constructor
          · intro h
            obtain ⟨hbn, -⟩ := (ih best).1 h
            rw [hbn] at hg3'
            simp [runBetter] at hg3'
          · intro r hr
            obtain ⟨hor, hdom, hscan⟩ := (ih best).2 r hr
            refine ⟨?_, hdom, ?_⟩
            · rcases hor with h | ⟨hm, he⟩
              · exact Or.inl h
              · exact Or.inr ⟨List.mem_cons_of_mem _ hm, he⟩
            · intro b hb he
              rcases List.mem_cons.1 hb with rfl | hb'
              · exact hdom b hg3'
              · exact hscan b hb' he

/-- **C3.** The run-selection comparator and `bestRun` choice: `runBetter`
prefers any run over an absent best; it prefers `b` over a present best `a`
exactly when `b` uses strictly more VMs, or they use equally many and `a` is
not yet fully ready (images and networks) while `b` is.  `chooseBestRun` (the
`bestRun` loop of `chooseNextAction`) returns `none` exactly when no run is
still in stage `New` with a VM count at most `countNonTestIDs`, and otherwise
returns such an eligible run that no other eligible run beats under
`runBetter`. -/
theorem chooseNextAction_bestRun_maximal (s : suiteState) (nrVMs : ℕ)
    (testRuns : List testRun) :
    (∀ b : testRun, runBetter s none b = true) ∧
    (∀ a b : testRun, runBetter s (some a) b = true ↔
       (a.vms.length < b.vms.length ∨
        (b.vms.length = a.vms.length ∧ readyRun s a = false ∧ readyRun s b = true))) ∧
    (chooseBestRun nrVMs testRuns s = none →
       ∀ b ∈ testRuns, ¬eligibleRun s (countNonTestIDs nrVMs testRuns s) b) ∧
    (∀ r, chooseBestRun nrVMs testRuns s = some r →
       r ∈ testRuns ∧ eligibleRun s (countNonTestIDs nrVMs testRuns s) r ∧
       ∀ b ∈ testRuns, eligibleRun s (countNonTestIDs nrVMs testRuns s) b →
         runBetter s (some r) b = false) := by
  refine ⟨fun b => rfl, runBetter_some_iff s, ?_, ?_⟩
  · intro h
    exact ((chooseBestRunGo_invariant s (countNonTestIDs nrVMs testRuns s) testRuns none).1 h).2
  · intro r hr
    obtain ⟨hor, -, hscan⟩ :=
      (chooseBestRunGo_invariant s (countNonTestIDs nrVMs testRuns s) testRuns none).2 r hr
    rcases hor with h | ⟨hm, he⟩
    · exact absurd h (by simp)
    · exact ⟨hm, he, hscan⟩

/-! ## Scheduler actions and the scheduling loop transition system -/

/-- `deleteAll` from the scheduler. -/
def deleteAll (m : Finset ℕ) (ids : List ℕ) : Finset ℕ :=
  ids.foldl (fun m i => m.erase i) m

/-- The `for i := 0; i < suiteRun.nrVMs; i++` loop of `getIDs`, appending
each free ID and stopping once `n` have been collected. -/
def getIDsGo (free : Finset ℕ) (n : ℕ) : List ℕ → List ℕ → List ℕ
  | [], ids => ids
  | id :: rest, ids =>
    if id ∈ free then
      if ids.length + 1 = n then ids ++ [id]
      else getIDsGo free n rest (ids ++ [id])
    else getIDsGo free n rest ids

/-- `getIDs` from the scheduler: the first (at most) `n` free IDs in
`[startVM, startVM+nrVMs)`, in increasing order. -/
def getIDs (startVM nrVMs : ℕ) (free : Finset ℕ) (n : ℕ) : List ℕ :=
  getIDsGo free n ((List.range nrVMs).map (fun i => startVM + i)) []

/-- The Go statement `state.networks[networkName].stage = st`: modify the
stage of the entry of that key (the first occurrence; keys are unique). -/
def updateNetStage (nm : NName) (st : networkStage) :
    List (NName × networkState) → List (NName × networkState)
  | [] => []
  | (k, ns) :: rest =>
    if k = nm then (k, { ns with stage := st }) :: rest
    else (k, ns) :: updateNetStage nm st rest

/-- The four `action` implementations of the scheduler, carrying the fields
their `updatePre`/`updatePost` read. -/
inductive action
  | performTest (run : testRun) (ids : List ℕ) (networkNames : List NName)
  | pullImage (image : String)
  | provisionImage (v : vm) (id : ℕ) (networkName : NName)
  | addNetwork (networkName : NName) (network : virterNet) (access : Bool)
deriving DecidableEq, Repr

/-- `performTestAction.updatePre`. -/
def performTestUpdatePre (run : testRun) (ids : List ℕ) (networkNames : List NName)
    (s : suiteState) : suiteState :=
  { s with runStage := aset run.testID runStage.exec s.runStage
           freeIDs := deleteAll s.freeIDs ids
           networks := networkNames.foldl
             (fun nets nm => updateNetStage nm networkStage.busy nets) s.networks }

/-- `pullImageAction.updatePre`. -/
def pullImageUpdatePre (image : String) (s : suiteState) : suiteState :=
  { s with baseImage := aset image imageStage.provision s.baseImage }

/-- `provisionImageAction.updatePre`. -/
def provisionImageUpdatePre (v : vm) (id : ℕ) (networkName : NName)
    (s : suiteState) : suiteState :=
  { s with imageStage := aset (vm.ID v) imageStage.provision s.imageStage
           freeIDs := s.freeIDs.erase id
           networks := updateNetStage networkName networkStage.busy s.networks }

/-- `addNetworkAction.updatePre`: insert the new network in stage `Add`, and
reserve the subnet blocks when DHCP is requested.  A failing `ReserveNext`
panics in Go (aborting the process); the fallthrough branches here are
unreachable under non-exhaustion and keep the allocator untouched. -/
def addNetworkUpdatePre (networkName : NName) (network : virterNet) (access : Bool)
    (s : suiteState) : suiteState :=
  let s1 :=
    { s with networks := aset networkName ⟨network, access, networkStage.add⟩ s.networks }
  if network.DHCP then
    match ReserveNext s1.freeNets false with
    | Option.none => s1
    | some (_, fn1) =>
      if network.IPv6 then
        match ReserveNext fn1 true with
        | Option.none => { s1 with freeNets := fn1 }
        | some (_, fn2) => { s1 with freeNets := fn2 }
      else { s1 with freeNets := fn1 }
  else s1

/-- The `updatePre` method dispatch of the `action` interface. -/
def updatePre (a : action) (s : suiteState) : suiteState :=
  match a with
  | .performTest run ids networkNames => performTestUpdatePre run ids networkNames s
  | .pullImage image => pullImageUpdatePre image s
  | .provisionImage v id networkName => provisionImageUpdatePre v id networkName s
  | .addNetwork networkName network access => addNetworkUpdatePre networkName network access s

/-- `performTestAction.updatePost` (the result of `performTest` is `res`). -/
def performTestUpdatePost (run : testRun) (ids : List ℕ) (networkNames : List NName)
    (res : testResult) (s : suiteState) : suiteState :=
  { s with runStage := aset run.testID runStage.done s.runStage
           runResults := aset run.testID res s.runResults
           errors := s.errors ++ (match res.err with
             | some e => [GoErr.wrapped run.testID e]
             | Option.none => [])
           networks := networkNames.foldl
             (fun nets nm => updateNetStage nm networkStage.ready nets) s.networks
           freeIDs := ids.foldl (fun m id => insert id m) s.freeIDs }

/-- `pullImageAction.updatePost`. -/
def pullImageUpdatePost (image : String) (e : Option GoErr) (s : suiteState) : suiteState :=
  match e with
  | Option.none => { s with baseImage := aset image imageStage.ready s.baseImage }
  | some e =>
    { s with baseImage := aset image imageStage.error s.baseImage
             errors := s.errors ++ [GoErr.wrapped ("pull image " ++ image) e] }

/-- `provisionImageAction.updatePost`. -/
def provisionImageUpdatePost (v : vm) (id : ℕ) (networkName : NName) (e : Option GoErr)
    (s : suiteState) : suiteState :=
  let s1 := { s with networks := updateNetStage networkName networkStage.ready s.networks
                     freeIDs := insert id s.freeIDs }
  match e with
  | Option.none => { s1 with imageStage := aset (vm.ID v) imageStage.ready s1.imageStage }
  | some e =>
    { s1 with imageStage := aset (vm.ID v) imageStage.error s1.imageStage
              errors := s1.errors ++ [GoErr.wrapped ("provision " ++ vm.ID v) e] }

/-- `addNetworkAction.updatePost` (label of the wrapped error abbreviated). -/
def addNetworkUpdatePost (networkName : NName) (e : Option GoErr) (s : suiteState) :
    suiteState :=
  match e with
  | some e =>
    { s with errors := s.errors ++ [GoErr.wrapped "add network" e]
             networks := updateNetStage networkName networkStage.error s.networks }
  | Option.none => { s with networks := updateNetStage networkName networkStage.ready s.networks }

/-- `makeAddNetworkAction` from the scheduler: refuse while any network is in
stage `Add` (serialization of AddNetwork), otherwise name the new network
after the current size of the networks map. -/
def makeAddNetworkAction (s : suiteState) (network : virterNet) (access : Bool) :
    Option action :=
  if s.networks.any (fun kv => decide (kv.2.stage = networkStage.add)) then none
  else some (.addNetwork (generateNetworkName s.networks.length access) network access)

/-- `nextActionRun` from the scheduler. -/
def nextActionRun (startVM nrVMs : ℕ) (s : suiteState) (run : testRun) : Option action :=
  if s.freeIDs.card < run.vms.length then none
  else if ¬ allImagesReady s run then none
  else
    let network := accessNetwork run.variant.IPv6
    match findReadyNetwork s [] network true with
    | Option.none => makeAddNetworkAction s network true
    | some networkName =>
      let p := findExtraNetworks s run
      match p.2 with
      | remaining0 :: _ => makeAddNetworkAction s remaining0 false
      | [] =>
        let ids := getIDs startVM nrVMs s.freeIDs run.vms.length
        some (.performTest run ids (networkName :: p.1.reduceOption))

/-- `nextActionProvision` from the scheduler.  `ids[0]` on an empty `getIDs`
result would panic in Go; the `none` fallback is unreachable because the
caller guarantees a free ID in range. -/
def nextActionProvision (startVM nrVMs : ℕ) (s : suiteState) (v : vm) : Option action :=
  if alookup v.BaseImage s.baseImage = some imageStage.none then
    some (.pullImage v.BaseImage)
  else if alookup v.BaseImage s.baseImage ≠ some imageStage.ready then none
  else
    let network := accessNetwork false
    match findReadyNetwork s [] network true with
    | Option.none => makeAddNetworkAction s network true
    | some networkName =>
      match getIDs startVM nrVMs s.freeIDs 1 with
      | [] => none
      | id :: _ => some (.provisionImage v id networkName)

/-- The `for i, v := range suiteRun.vmSpec.VMs` loop of `chooseNextAction`:
the first VM whose base image or per-VM image is still `None`. -/
def chooseProvisionVM (s : suiteState) : List vm → Option vm
  | [] => none
  | v :: rest =>
    if alookup v.BaseImage s.baseImage = some imageStage.none ∨
       alookup (vm.ID v) s.imageStage = some imageStage.none then some v
    else chooseProvisionVM s rest

/-- `chooseNextAction` from the scheduler. -/
def chooseNextAction (startVM nrVMs : ℕ) (testRuns : List testRun) (vmsSpec : List vm)
    (s : suiteState) : Option action :=
  let fromBest :=
    match chooseBestRun nrVMs testRuns s with
    | some bestRun => nextActionRun startVM nrVMs s bestRun
    | Option.none => none
  match fromBest with
  | some a => some a
  | Option.none =>
    if s.freeIDs.card < 1 then none
    else
      match chooseProvisionVM s vmsSpec with
      | some v => nextActionProvision startVM nrVMs s v
      | Option.none => none

/-- The per-invocation configuration of `runScheduler` (the parts of
`testSuiteRun` the scheduler loop reads). -/
structure schedCfg where
  startVM : ℕ
  nrVMs : ℕ
  testRuns : List testRun
  vmsSpec : List vm
  pullImageTemplateSet : Bool
  provisionFileSet : Bool
  firstV4Net : Cidr
  firstV6Net : Cidr

/-- `initializeState` from the scheduler. -/
def initializeState (cfg : schedCfg) : suiteState :=
  let initialBaseImageState :=
    if cfg.pullImageTemplateSet then imageStage.none else imageStage.ready
  let initialImageStage :=
    if cfg.provisionFileSet then imageStage.none else imageStage.ready
  { networks := []
    baseImage := cfg.vmsSpec.foldl (fun m v => aset v.BaseImage initialBaseImageState m) []
    imageStage := cfg.vmsSpec.foldl (fun m v => aset (vm.ID v) initialImageStage m) []
    runStage := cfg.testRuns.foldl (fun m run => aset run.testID runStage.new m) []
    runResults := []
    freeIDs := (Finset.range cfg.nrVMs).image (fun i => cfg.startVM + i)
    freeNets := NewNetworkList cfg.firstV4Net cfg.firstV6Net
    errors := [] }

/-- A state of the scheduling loop: the shared `suiteState` plus the
multiset of dispatched actions whose `exec` has not yet completed. -/
structure schedState where
  st : suiteState
  inflight : List action

/-- One transition of the scheduling loop: either dispatch the action chosen
by `chooseNextAction` (applying its `updatePre`), or receive the completion
of any in-flight action with an arbitrary outcome (applying its
`updatePost`).  This captures every interleaving of the loop in
`scheduleLoop`. -/
inductive Step (cfg : schedCfg) : schedState → schedState → Prop
  | dispatch (σ : schedState) (a : action)
      (h : chooseNextAction cfg.startVM cfg.nrVMs cfg.testRuns cfg.vmsSpec σ.st = some a) :
      Step cfg σ ⟨updatePre a σ.st, a :: σ.inflight⟩
  | completeTest (σ : schedState) (l1 l2 : List action) (run : testRun) (ids : List ℕ)
      (networkNames : List NName) (res : testResult)
      (h : σ.inflight = l1 ++ action.performTest run ids networkNames :: l2) :
      Step cfg σ ⟨performTestUpdatePost run ids networkNames res σ.st, l1 ++ l2⟩
  | completePull (σ : schedState) (l1 l2 : List action) (image : String) (e : Option GoErr)
      (h : σ.inflight = l1 ++ action.pullImage image :: l2) :
      Step cfg σ ⟨pullImageUpdatePost image e σ.st, l1 ++ l2⟩
  | completeProvision (σ : schedState) (l1 l2 : List action) (v : vm) (id : ℕ)
      (networkName : NName) (e : Option GoErr)
      (h : σ.inflight = l1 ++ action.provisionImage v id networkName :: l2) :
      Step cfg σ ⟨provisionImageUpdatePost v id networkName e σ.st, l1 ++ l2⟩
  | completeAddNetwork (σ : schedState) (l1 l2 : List action) (networkName : NName)
      (network : virterNet) (access : Bool) (e : Option GoErr)
      (h : σ.inflight = l1 ++ action.addNetwork networkName network access :: l2) :
      Step cfg σ ⟨addNetworkUpdatePost networkName e σ.st, l1 ++ l2⟩

/-- The states reachable by the scheduling loop from `initializeState`. -/
inductive Reachable (cfg : schedCfg) : schedState → Prop
  | init : Reachable cfg ⟨initializeState cfg, []⟩
  | step {σ σ' : schedState} : Reachable cfg σ → Step cfg σ σ' → Reachable cfg σ'

/-- The VM slot IDs held by an in-flight action. -/
def heldIDs : action → List ℕ
  | .performTest _ ids _ => ids
  | .provisionImage _ id _ => [id]
  | _ => []

/-- The network names held (marked `Busy`) by an in-flight action. -/
def heldNets : action → List NName
  | .performTest _ _ networkNames => networkNames
  | .provisionImage _ _ networkName => [networkName]
  | _ => []

/-- Whether an action is an AddNetwork action. -/
def isAddNetwork : action → Bool
  | .addNetwork _ _ _ => true
  | _ => false

/-- The number of in-flight AddNetwork actions. -/
def inflightAddCount (inflight : List action) : ℕ :=
  inflight.countP isAddNetwork

/-- The full VM slot ID range `[startVM, startVM+nrVMs)` as a multiset. -/
def idRange (startVM nrVMs : ℕ) : Multiset ℕ :=
  ((List.range nrVMs).map (fun i => startVM + i) : Multiset ℕ)

theorem idRange_nodup (startVM nrVMs : ℕ) : (idRange startVM nrVMs).Nodup := by
  rw [idRange, Multiset.coe_nodup]
  exact List.Nodup.map (fun a b h => by omega) (List.nodup_range _)

theorem mem_idRange (startVM nrVMs id : ℕ) :
    id ∈ idRange startVM nrVMs ↔ startVM ≤ id ∧ id < startVM + nrVMs := by
  rw [idRange]
  simp only [Multiset.mem_coe, List.mem_map, List.mem_range]
  constructor
  · rintro ⟨i, hi, rfl⟩
    omega
  · rintro ⟨h1, h2⟩
    exact ⟨id - startVM, by omega, by omega⟩

theorem getIDsGo_spec (free : Finset ℕ) (n : ℕ) :
    ∀ (l ids : List ℕ), l.Nodup →
      ∃ extra, getIDsGo free n l ids = ids ++ extra ∧ extra.Nodup ∧
        ∀ x ∈ extra, x ∈ free ∧ x ∈ l := by
  intro l
  induction l with
  | nil =>
    intro ids h
    exact ⟨[], by simp [getIDsGo], by simp, by simp⟩
  | cons id rest ih =>
    intro ids hnd
    rw [List.nodup_cons] at hnd
    by_cases hf : id ∈ free
    · by_cases hlen : ids.length + 1 = n
      · refine ⟨[id], ?_, by simp, by simp [hf]⟩
        simp [getIDsGo, hf, hlen]
      · obtain ⟨extra, heq, hnodup, hmem⟩ := ih (ids ++ [id]) hnd.2
        refine ⟨id :: extra, ?_, ?_, ?_⟩
        · simp only [getIDsGo, if_pos hf, if_neg hlen]
          rw [heq]
          simp
        · rw [List.nodup_cons]
          exact ⟨fun hm => hnd.1 (hmem id hm).2, hnodup⟩
        · intro x hx
          rcases List.mem_cons.1 hx with rfl | hx'
          · exact ⟨hf, List.mem_cons_self _ _⟩
          · exact ⟨(hmem x hx').1, List.mem_cons_of_mem _ (hmem x hx').2⟩
    · obtain ⟨extra, heq, hnodup, hmem⟩ := ih ids hnd.2
      refine ⟨extra, ?_, hnodup, ?_⟩
      · simp only [getIDsGo, if_neg hf]
        exact heq
      · intro x hx
        exact ⟨(hmem x hx).1, List.mem_cons_of_mem _ (hmem x hx).2⟩

theorem getIDs_spec (startVM nrVMs : ℕ) (free : Finset ℕ) (n : ℕ) :
    (getIDs startVM nrVMs free n).Nodup ∧ ∀ x ∈ getIDs startVM nrVMs free n, x ∈ free := by
  have hnd : ((List.range nrVMs).map (fun i => startVM + i)).Nodup :=
    List.Nodup.map (fun a b h => by omega) (List.nodup_range _)
  obtain ⟨extra, heq, hnodup, hmem⟩ := getIDsGo_spec free n _ [] hnd
  rw [getIDs, heq]
  simp only [List.nil_append]
  exact ⟨hnodup, fun x hx => (hmem x hx).1⟩

theorem deleteAll_val (m : Finset ℕ) :
    ∀ ids : List ℕ, ids.Nodup → (∀ x ∈ ids, x ∈ m) →
      (deleteAll m ids).val + Multiset.ofList ids = m.val := by
  intro ids
  induction ids generalizing m with
  | nil =>
    intro _ _
    simp [deleteAll]
  | cons i ids ih =>
    intro hnd hmem
    rw [List.nodup_cons] at hnd
    have hi : i ∈ m := hmem i (List.mem_cons_self _ _)
    have hsub : ∀ x ∈ ids, x ∈ m.erase i := by
      intro x hx
      exact Finset.mem_erase.2 ⟨fun he => hnd.1 (he ▸ hx), hmem x (List.mem_cons_of_mem _ hx)⟩
    have hstep : deleteAll m (i :: ids) = deleteAll (m.erase i) ids := by
      simp [deleteAll]
    rw [hstep]
    have hcoe : Multiset.ofList (i :: ids) = i ::ₘ Multiset.ofList ids := rfl
    rw [hcoe, Multiset.add_cons, ih (m.erase i) hnd.2 hsub]
    rw [Finset.erase_val]
    exact Multiset.cons_erase hi

theorem insertAll_val (m : Finset ℕ) :
    ∀ ids : List ℕ, ids.Nodup → (∀ x ∈ ids, x ∉ m) →
      (ids.foldl (fun m id => insert id m) m).val = m.val + Multiset.ofList ids := by
  intro ids
  induction ids generalizing m with
  | nil =>
    intro _ _
    simp
  | cons i ids ih =>
    intro hnd hmem
    rw [List.nodup_cons] at hnd
    have hi : i ∉ m := hmem i (List.mem_cons_self _ _)
    have hmem' : ∀ x ∈ ids, x ∉ insert i m := by
      intro x hx hmem2
      rcases Finset.mem_insert.1 hmem2 with rfl | h
      · exact hnd.1 hx
      · exact hmem x (List.mem_cons_of_mem _ hx) h
    rw [List.foldl_cons, ih (insert i m) hnd.2 hmem']
    have hins : (insert i m).val = i ::ₘ m.val := by
      rw [Finset.insert_val, Multiset.ndinsert_of_not_mem hi]
    rw [hins]
    show (i ::ₘ m.val) + Multiset.ofList ids = m.val + Multiset.ofList (i :: ids)
    have hcoe : Multiset.ofList (i :: ids) = i ::ₘ Multiset.ofList ids := rfl
    rw [hcoe, Multiset.cons_add, Multiset.add_cons]

theorem coe_flatten_eq_sum (L : List (List ℕ)) :
    Multiset.ofList L.flatten = (L.map Multiset.ofList).sum := by
  induction L with
  | nil => rfl
  | cons l L ih =>
    rw [List.flatten_cons, List.map_cons, List.sum_cons, ← ih]
    exact (Multiset.coe_add l L.flatten).symm

theorem card_list_sum (L : List (Multiset ℕ)) :
    Multiset.card L.sum = (L.map (fun s => Multiset.card s)).sum := by
  induction L with
  | nil => rfl
  | cons s L ih => simp [ih]

/-! ### Properties of the network map updates -/

theorem updateNetStage_length (nm : NName) (st : networkStage) (l : List (NName × networkState)) :
    (updateNetStage nm st l).length = l.length := by
  induction l with
  | nil => rfl
  | cons kv rest ih =>
    obtain ⟨k, ns⟩ := kv
    by_cases h : k = nm <;> simp [updateNetStage, h, ih]

theorem updateNetStage_getElem? (nm : NName) (st : networkStage) :
    ∀ (l : List (NName × networkState)) (j : ℕ) (kv' : NName × networkState),
      (updateNetStage nm st l)[j]? = some kv' →
      ∃ kv, l[j]? = some kv ∧ kv'.1 = kv.1 ∧ kv'.2.isAccess = kv.2.isAccess ∧
        kv'.2.network = kv.2.network := by
  intro l
  induction l with
  | nil =>
    intro j kv' h
    simp [updateNetStage] at h
  | cons kv rest ih =>
    intro j kv' h
    obtain ⟨k, ns⟩ := kv
    by_cases hk : k = nm
    · simp only [updateNetStage, if_pos hk] at h
      cases j with
      | zero =>
        simp only [List.getElem?_cons_zero, Option.some.injEq] at h
        exact ⟨(k, ns), by simp, by simp [← h]⟩
      | succ j =>
        simp only [List.getElem?_cons_succ] at h ⊢
        exact ⟨kv', h, rfl, rfl, rfl⟩
    · simp only [updateNetStage, if_neg hk] at h
      cases j with
      | zero =>
        simp only [List.getElem?_cons_zero, Option.some.injEq] at h
        exact ⟨(k, ns), by simp, by simp [← h]⟩
      | succ j =>
        simp only [List.getElem?_cons_succ] at h ⊢
        exact ih j kv' h

theorem alookup_updateNetStage_self (nm : NName) (st : networkStage) :
    ∀ l : List (NName × networkState),
      alookup nm (updateNetStage nm st l) =
        (alookup nm l).map (fun ns => { ns with stage := st }) := by
  intro l
  induction l with
  | nil => rfl
  | cons kv rest ih =>
    obtain ⟨k, ns⟩ := kv
    by_cases hk : k = nm
    · simp [updateNetStage, hk, alookup]
    · simp [updateNetStage, hk, alookup, ih]

theorem alookup_updateNetStage_ne (k nm : NName) (st : networkStage)
    (h : k ≠ nm) :
    ∀ l : List (NName × networkState),
      alookup k (updateNetStage nm st l) = alookup k l := by
  intro l
  induction l with
  | nil => rfl
  | cons kv rest ih =>
    obtain ⟨k', ns⟩ := kv
    by_cases hk : k' = nm
    · subst hk
      have : ¬(k' = k) := fun he => h (he ▸ rfl)
      simp [updateNetStage, alookup, this]
    · simp only [updateNetStage, if_neg hk, alookup]
      by_cases hk' : k' = k
      · simp [hk']
      · simp [hk', ih]

theorem alookup_foldl_update_notmem (st : networkStage) (k : NName) :
    ∀ (names : List NName) (l : List (NName × networkState)), k ∉ names →
      alookup k (names.foldl (fun nets nm => updateNetStage nm st nets) l) = alookup k l := by
  intro names
  induction names with
  | nil =>
    intro l _
    rfl
  | cons nm rest ih =>
    intro l hk
    simp only [List.mem_cons, not_or] at hk
    rw [List.foldl_cons, ih _ hk.2, alookup_updateNetStage_ne k nm st hk.1]

theorem alookup_foldl_update_mem (st : networkStage) (k : NName) (ns : networkState) :
    ∀ (names : List NName) (l : List (NName × networkState)), names.Nodup → k ∈ names →
      alookup k l = some ns →
      alookup k (names.foldl (fun nets nm => updateNetStage nm st nets) l) =
        some { ns with stage := st } := by
  intro names
  induction names with
  | nil =>
    intro l _ hk
    simp at hk
  | cons nm rest ih =>
    intro l hnd hk hl
    rw [List.nodup_cons] at hnd
    rcases List.mem_cons.1 hk with rfl | hk'
    · rw [List.foldl_cons, alookup_foldl_update_notmem st k rest _ hnd.1]
      rw [alookup_updateNetStage_self, hl]
      rfl
    · rw [List.foldl_cons]
      refine ih _ hnd.2 hk' ?_
      rw [alookup_updateNetStage_ne k nm st (fun he => hnd.1 (he ▸ hk')) l, hl]

theorem foldl_update_getElem? (st : networkStage) :
    ∀ (names : List NName) (l : List (NName × networkState)) (j : ℕ)
      (kv' : NName × networkState),
      (names.foldl (fun nets nm => updateNetStage nm st nets) l)[j]? = some kv' →
      ∃ kv, l[j]? = some kv ∧ kv'.1 = kv.1 ∧ kv'.2.isAccess = kv.2.isAccess := by
  intro names
  induction names with
  | nil =>
    intro l j kv' h
    exact ⟨kv', h, rfl, rfl⟩
  | cons nm rest ih =>
    intro l j kv' h
    rw [List.foldl_cons] at h
    obtain ⟨kv1, h1, hf1, ha1⟩ := ih _ j kv' h
    obtain ⟨kv0, h0, hf0, ha0, -⟩ := updateNetStage_getElem? nm st l j kv1 h1
    exact ⟨kv0, h0, hf1.trans hf0, ha1.trans ha0⟩

theorem foldl_update_length (st : networkStage) :
    ∀ (names : List NName) (l : List (NName × networkState)),
      (names.foldl (fun nets nm => updateNetStage nm st nets) l).length = l.length := by
  intro names
  induction names with
  | nil =>
    intro l
    rfl
  | cons nm rest ih =>
    intro l
    rw [List.foldl_cons, ih, updateNetStage_length]

theorem alookup_append_of_some {κ α : Type} [DecidableEq κ] {k : κ} {w : α}
    {l : List (κ × α)} (l2 : List (κ × α)) (h : alookup k l = some w) :
    alookup k (l ++ l2) = some w := by
  induction l with
  | nil => simp [alookup] at h
  | cons kv rest ih =>
    simp only [alookup] at h ⊢
    by_cases hk : kv.1 = k
    · simpa [hk] using h
    · rw [if_neg hk] at h ⊢
      exact ih h

/-! ### Properties of `findReadyNetwork` and `findExtraNetworks` -/

theorem tryReadyNetworkAt_some {networks : List (NName × networkState)}
    {exclude : List NName} {network : virterNet} {access : Bool} {i : ℕ} {nm : NName}
    (h : tryReadyNetworkAt networks exclude network access i = some nm) :
    nm = generateNetworkName i access ∧
    ∃ ns, alookup nm networks = some ns ∧ ns.stage = networkStage.ready ∧
      nm ∉ exclude ∧
      ns.network.ForwardMode = network.ForwardMode ∧ ns.network.DHCP = network.DHCP ∧
      ns.network.Domain = network.Domain ∧ ns.network.IPv6 = network.IPv6 ∧
      ns.isAccess = access := by
  rcases hl : alookup (generateNetworkName i access) networks with _ | ns
  · simp only [tryReadyNetworkAt, hl] at h
    exact absurd h (by simp)
  · simp only [tryReadyNetworkAt, hl] at h
    split_ifs at h with h1 h2 h3 h4 <;> simp at h
    subst h
    push_neg at h1 h3 h4
    exact ⟨rfl, ns, hl, h1, h2, h3.1, h3.2.1, h3.2.2.1, h3.2.2.2, h4⟩

theorem findReadyNetworkGo_some {networks : List (NName × networkState)}
    {exclude : List NName} {network : virterNet} {access : Bool} {nm : NName} :
    ∀ {is : List ℕ}, findReadyNetworkGo networks exclude network access is = some nm →
      ∃ i ∈ is, tryReadyNetworkAt networks exclude network access i = some nm := by
  intro is
  induction is with
  | nil =>
    intro h
    exact absurd h (by simp [findReadyNetworkGo])
  | cons i rest ih =>
    intro h
    simp only [findReadyNetworkGo] at h
    rcases ht : tryReadyNetworkAt networks exclude network access i with _ | nm'
    · rw [ht] at h
      obtain ⟨i', hi', ht'⟩ := ih h
      exact ⟨i', List.mem_cons_of_mem _ hi', ht'⟩
    · rw [ht] at h
      simp only [Option.some.injEq] at h
      exact ⟨i, List.mem_cons_self _ _, h ▸ ht⟩

theorem findReadyNetworkGo_none {networks : List (NName × networkState)}
    {exclude : List NName} {network : virterNet} {access : Bool} :
    ∀ {is : List ℕ}, findReadyNetworkGo networks exclude network access is = none →
      ∀ i ∈ is, tryReadyNetworkAt networks exclude network access i = none := by
  intro is
  induction is with
  | nil =>
    intro _ i hi
    simp at hi
  | cons i rest ih =>
    intro h j hj
    simp only [findReadyNetworkGo] at h
    rcases ht : tryReadyNetworkAt networks exclude network access i with _ | nm'
    · rw [ht] at h
      rcases List.mem_cons.1 hj with rfl | hj'
      · exact ht
      · exact ih h j hj'
    · rw [ht] at h
      exact absurd h (by simp)

/-- The facts guaranteed by a successful `findReadyNetwork`: the returned name
belongs to a `Ready`, non-excluded network whose spec fields match and whose
access flag is the requested one (which is also encoded in the name). -/
theorem findReadyNetwork_spec {s : suiteState} {exclude : List NName}
    {network : virterNet} {access : Bool} {nm : NName}
    (h : findReadyNetwork s exclude network access = some nm) :
    ∃ ns, alookup nm s.networks = some ns ∧ ns.stage = networkStage.ready ∧
      nm ∉ exclude ∧
      ns.network.ForwardMode = network.ForwardMode ∧ ns.network.DHCP = network.DHCP ∧
      ns.network.Domain = network.Domain ∧ ns.network.IPv6 = network.IPv6 ∧
      ns.isAccess = access ∧ nm.access = access := by
  obtain ⟨i, -, ht⟩ := findReadyNetworkGo_some h
  obtain ⟨hnm, ns, hl, hst, hex, hf1, hf2, hf3, hf4, hacc⟩ := tryReadyNetworkAt_some ht
  exact ⟨ns, hl, hst, hex, hf1, hf2, hf3, hf4, hacc, by rw [hnm]; rfl⟩

/-- The facts guaranteed when `findExtraNetworks` reports no remaining
networks: every requested extra network got a distinct `Ready` non-access
network, none of which was in the initially used set. -/
theorem findExtraNetworksGo_spec (s : suiteState) :
    ∀ (nets : List virterNet) (used : List NName) (names : List (Option NName)),
      findExtraNetworksGo s nets used = (names, []) →
      names.reduceOption.Nodup ∧
      ∀ nm ∈ names.reduceOption, nm ∉ used ∧
        ∃ ns, alookup nm s.networks = some ns ∧ ns.stage = networkStage.ready ∧
          ns.isAccess = false := by
  intro nets
  induction nets with
  | nil =>
    intro used names h
    simp only [findExtraNetworksGo, Prod.mk.injEq] at h
    rw [← h.1]
    exact ⟨by simp, by simp⟩
  | cons network rest ih =>
    intro used names h
    simp only [findExtraNetworksGo] at h
    rcases hf : findReadyNetwork s used network false with _ | nm0
    · rw [hf] at h
      simp only [Prod.mk.injEq] at h
      exact absurd h.2 (by simp)
    · rw [hf] at h
      simp only [Prod.mk.injEq, List.nil_append] at h
      obtain ⟨hnames, hrem⟩ := h
      obtain ⟨ns0, hl0, hst0, hex0, -, -, -, -, hacc0, -⟩ := findReadyNetwork_spec hf
      obtain ⟨hnd, hmem⟩ := ih (used ++ [nm0])
        (findExtraNetworksGo s rest (used ++ [nm0])).1 (by rw [← hrem])
      rw [← hnames]
      simp only [List.reduceOption_cons_of_some, List.nodup_cons]
      refine ⟨⟨fun hm => ?_, hnd⟩, ?_⟩
      · exact (hmem nm0 hm).1 (by simp)
      · intro nm hm
        rcases List.mem_cons.1 hm with rfl | hm'
        · exact ⟨hex0, ns0, hl0, hst0, hacc0⟩
        · obtain ⟨hnu, hrest⟩ := hmem nm hm'
          exact ⟨fun hu => hnu (by simp [hu]), hrest⟩

/-! ### Inversion of the dispatch decision -/

theorem makeAddNetworkAction_some {s : suiteState} {network : virterNet} {access : Bool}
    {a : action} (h : makeAddNetworkAction s network access = some a) :
    a = action.addNetwork (generateNetworkName s.networks.length access) network access ∧
    ∀ kv ∈ s.networks, kv.2.stage ≠ networkStage.add := by
  simp only [makeAddNetworkAction] at h
  split_ifs at h with hany
  simp only [Option.some.injEq] at h
  refine ⟨h.symm, ?_⟩
  intro kv hkv hst
  exact hany (List.any_eq_true.2 ⟨kv, hkv, by simp [hst]⟩)

/-- The facts guaranteed by any action produced by `nextActionRun`,
`nextActionProvision` or `chooseNextAction`, per action shape. -/
def dispatchFacts (startVM nrVMs : ℕ) (s : suiteState) (a : action) : Prop :=
  (∀ run ids networkNames, a = action.performTest run ids networkNames →
     ids = getIDs startVM nrVMs s.freeIDs run.vms.length ∧
     networkNames.Nodup ∧
     ∀ nm ∈ networkNames, ∃ ns, alookup nm s.networks = some ns ∧
       ns.stage = networkStage.ready) ∧
  (∀ v id networkName, a = action.provisionImage v id networkName →
     id ∈ getIDs startVM nrVMs s.freeIDs 1 ∧
     ∃ ns, alookup networkName s.networks = some ns ∧ ns.stage = networkStage.ready) ∧
  (∀ networkName network access, a = action.addNetwork networkName network access →
     networkName = generateNetworkName s.networks.length access ∧
     ∀ kv ∈ s.networks, kv.2.stage ≠ networkStage.add)

theorem dispatchFacts_of_makeAddNetworkAction {startVM nrVMs : ℕ} {s : suiteState}
    {network : virterNet} {access : Bool} {a : action}
    (h : makeAddNetworkAction s network access = some a) :
    dispatchFacts startVM nrVMs s a := by
  obtain ⟨ha, hnone⟩ := makeAddNetworkAction_some h
  subst ha
  refine ⟨?_, ?_, ?_⟩
  · intro run ids networkNames he
    exact absurd he (by simp)
  · intro v id networkName he
    exact absurd he (by simp)
  · intro networkName network' access' he
    injection he with h1 h2 h3
    subst h3
    subst h1
    exact ⟨rfl, hnone⟩

theorem nextActionRun_inv {startVM nrVMs : ℕ} {s : suiteState} {run : testRun} {a : action}
    (h : nextActionRun startVM nrVMs s run = some a) :
    dispatchFacts startVM nrVMs s a := by
  simp only [nextActionRun] at h
  split_ifs at h with h1 h2
  rcases hf : findReadyNetwork s [] (accessNetwork run.variant.IPv6) true with _ | networkName
  · simp only [hf] at h
    exact dispatchFacts_of_makeAddNetworkAction h
  · simp only [hf] at h
    rcases hp : (findExtraNetworks s run).2 with _ | ⟨remaining0, rest⟩
    · simp only [hp] at h
      simp only [Option.some.injEq] at h
      subst h
      obtain ⟨nsA, hlA, hstA, -, -, -, -, -, haccA, -⟩ := findReadyNetwork_spec hf
      have hpair : findExtraNetworks s run = ((findExtraNetworks s run).1, []) := by
        rw [← hp]
      obtain ⟨hnd, hmem⟩ := findExtraNetworksGo_spec s run.networks []
        (findExtraNetworks s run).1 hpair
      refine ⟨?_, ?_, ?_⟩
      · intro run' ids' networkNames' he
        injection he with he1 he2 he3
        subst he1
        subst he2
        subst he3
        refine ⟨rfl, ?_, ?_⟩
        · rw [List.nodup_cons]
          refine ⟨?_, hnd⟩
          intro hmA
          obtain ⟨-, ns', hl', -, hacc'⟩ := hmem networkName hmA
          rw [hlA] at hl'
          injection hl' with hl'
          rw [← hl'] at hacc'
          rw [haccA] at hacc'
          exact absurd hacc' (by simp)
        · intro nm hnm
          rcases List.mem_cons.1 hnm with rfl | hnm'
          · exact ⟨nsA, hlA, hstA⟩
          · obtain ⟨-, ns', hl', hst', -⟩ := hmem nm hnm'
            exact ⟨ns', hl', hst'⟩
      · intro v id networkName' he
        exact absurd he (by simp)
      · intro networkName' network' access' he
        exact absurd he (by simp)
    · simp only [hp] at h
      exact dispatchFacts_of_makeAddNetworkAction h

theorem nextActionProvision_inv {startVM nrVMs : ℕ} {s : suiteState} {v : vm} {a : action}
    (h : nextActionProvision startVM nrVMs s v = some a) :
    dispatchFacts startVM nrVMs s a := by
  simp only [nextActionProvision] at h
  split_ifs at h with h1 h2
  · -- pullImage: holds no IDs and no networks
    simp only [Option.some.injEq] at h
    subst h
    refine ⟨?_, ?_, ?_⟩ <;> intro _ _ _ he <;> exact absurd he (by simp)
  · rcases hf : findReadyNetwork s [] (accessNetwork false) true with _ | networkName
    · simp only [hf] at h
      exact dispatchFacts_of_makeAddNetworkAction h
    · simp only [hf] at h
      rcases hids : getIDs startVM nrVMs s.freeIDs 1 with _ | ⟨id0, restIds⟩
      · simp only [hids] at h
        exact absurd h (by simp)
      · simp only [hids] at h
        simp only [Option.some.injEq] at h
        subst h
        obtain ⟨nsA, hlA, hstA, -⟩ := findReadyNetwork_spec hf
        refine ⟨?_, ?_, ?_⟩
        · intro run' ids' networkNames' he
          exact absurd he (by simp)
        · intro v' id' networkName' he
          injection he with he1 he2 he3
          subst he2
          subst he3
          exact ⟨by rw [hids]; exact List.mem_cons_self _ _, nsA, hlA, hstA⟩
        · intro networkName' network' access' he
          exact absurd he (by simp)

theorem chooseNextAction_fallback_inv {startVM nrVMs : ℕ} {vmsSpec : List vm}
    {s : suiteState} {a : action}
    (h : (if s.freeIDs.card < 1 then none
          else match chooseProvisionVM s vmsSpec with
            | some v => nextActionProvision startVM nrVMs s v
            | Option.none => none) = some a) :
    dispatchFacts startVM nrVMs s a := by
  split_ifs at h with h1
  rcases hcp : chooseProvisionVM s vmsSpec with _ | v
  · simp only [hcp] at h
    exact absurd h (by simp)
  · simp only [hcp] at h
    exact nextActionProvision_inv h

theorem chooseNextAction_inv {startVM nrVMs : ℕ} {testRuns : List testRun}
    {vmsSpec : List vm} {s : suiteState} {a : action}
    (h : chooseNextAction startVM nrVMs testRuns vmsSpec s = some a) :
    dispatchFacts startVM nrVMs s a := by
  rcases hb : chooseBestRun nrVMs testRuns s with _ | bestRun
  · have h2 : (if s.freeIDs.card < 1 then none
        else match chooseProvisionVM s vmsSpec with
          | some v => nextActionProvision startVM nrVMs s v
          | Option.none => none) = some a := by
      rw [← h]
      simp only [chooseNextAction, hb]
    exact chooseNextAction_fallback_inv h2
  · rcases hna : nextActionRun startVM nrVMs s bestRun with _ | a'
    · have h2 : (if s.freeIDs.card < 1 then none
          else match chooseProvisionVM s vmsSpec with
            | some v => nextActionProvision startVM nrVMs s v
            | Option.none => none) = some a := by
        rw [← h]
        simp only [chooseNextAction, hb, hna]
      exact chooseNextAction_fallback_inv h2
    · have h2 : some a' = some a := by
        rw [← h]
        simp only [chooseNextAction, hb, hna]
      simp only [Option.some.injEq] at h2
      subst h2
      exact nextActionRun_inv hna

/-! ### The scheduler invariant -/

/-- Density of network names (the keys of the networks map are exactly
`generateNetworkName i (t i)` for `i` below the map size). -/
def densityProp (l : List (NName × networkState)) : Prop :=
  ∀ (j : ℕ) (kv : NName × networkState), l[j]? = some kv →
    kv.1 = generateNetworkName j kv.2.isAccess

/-- The inductive invariant of the scheduling loop. -/
structure Inv (cfg : schedCfg) (σ : schedState) : Prop where
  ids_partition :
    σ.st.freeIDs.val + ((σ.inflight.map (fun a => Multiset.ofList (heldIDs a))).sum) =
      idRange cfg.startVM cfg.nrVMs
  density : densityProp σ.st.networks
  addLinked : ∀ nm network access, action.addNetwork nm network access ∈ σ.inflight →
      ∃ ns, alookup nm σ.st.networks = some ns ∧ ns.stage = networkStage.add
  addCount : inflightAddCount σ.inflight ≤ 1
  heldBusy : ∀ a ∈ σ.inflight, ∀ nm ∈ heldNets a,
      ∃ ns, alookup nm σ.st.networks = some ns ∧ ns.stage = networkStage.busy
  heldNodup : ((σ.inflight.map heldNets).flatten).Nodup

theorem alookup_append_of_none {κ α : Type} [DecidableEq κ] {k : κ}
    {l : List (κ × α)} (l2 : List (κ × α)) (h : alookup k l = none) :
    alookup k (l ++ l2) = alookup k l2 := by
  induction l with
  | nil => rfl
  | cons kv rest ih =>
    simp only [alookup] at h ⊢
    by_cases hk : kv.1 = k
    · rw [if_pos hk] at h
      exact absurd h (by simp)
    · rw [if_neg hk] at h ⊢
      exact ih h

theorem density_foldl_update {l : List (NName × networkState)} (st : networkStage)
    (names : List NName) (h : densityProp l) :
    densityProp (names.foldl (fun nets nm => updateNetStage nm st nets) l) := by
  intro j kv' hkv
  obtain ⟨kv, hkv0, hf, ha⟩ := foldl_update_getElem? st names l j kv' hkv
  rw [hf, ha]
  exact h j kv hkv0

theorem density_updateNetStage {l : List (NName × networkState)} (nm : NName)
    (st : networkStage) (h : densityProp l) : densityProp (updateNetStage nm st l) := by
  intro j kv' hkv
  obtain ⟨kv, hkv0, hf, ha, -⟩ := updateNetStage_getElem? nm st l j kv' hkv
  rw [hf, ha]
  exact h j kv hkv0

theorem notmem_of_stage_ne {l : List (NName × networkState)} {k : NName}
    {ns : networkState} {st : networkStage} (names : List NName)
    (hk : alookup k l = some ns)
    (hnames : ∀ nm ∈ names, ∃ ns', alookup nm l = some ns' ∧ ns'.stage = st)
    (hne : ns.stage ≠ st) : k ∉ names := by
  intro hm
  obtain ⟨ns', hl', hst'⟩ := hnames k hm
  rw [hk] at hl'
  injection hl' with hl'
  exact hne (hl' ▸ hst')

theorem ne_of_lookup_stage_ne {l : List (NName × networkState)} {k nm : NName}
    {ns ns' : networkState} (hk : alookup k l = some ns)
    (hnm : alookup nm l = some ns') (h : ns.stage ≠ ns'.stage) : k ≠ nm := by
  intro he
  rw [he, hnm] at hk
  injection hk with hk
  exact h (by rw [hk])

theorem addNetworkUpdatePre_networks (nm : NName) (network : virterNet) (access : Bool)
    (s : suiteState) :
    (addNetworkUpdatePre nm network access s).networks =
      aset nm ⟨network, access, networkStage.add⟩ s.networks := by
  unfold addNetworkUpdatePre
  dsimp only
  repeat' split
  all_goals rfl

theorem addNetworkUpdatePre_freeIDs (nm : NName) (network : virterNet) (access : Bool)
    (s : suiteState) :
    (addNetworkUpdatePre nm network access s).freeIDs = s.freeIDs := by
  unfold addNetworkUpdatePre
  dsimp only
  repeat' split
  all_goals rfl

theorem Inv_init (cfg : schedCfg) : Inv cfg ⟨initializeState cfg, []⟩ := by
  refine ⟨?_, ?_, ?_, ?_, ?_, ?_⟩
  · show (initializeState cfg).freeIDs.val + 0 = idRange cfg.startVM cfg.nrVMs
    rw [add_zero]
    show ((Finset.range cfg.nrVMs).image (fun i => cfg.startVM + i)).val = _
    rw [Finset.image_val_of_injOn (fun a _ b _ h => by omega), Finset.range_val]
    rw [idRange]
    rfl
  · intro j kv h
    simp only [initializeState] at h
    simp at h
  · intro nm network access h
    simp at h
  · simp [inflightAddCount]
  · intro a h
    simp at h
  · simp

theorem Inv_dispatch (cfg : schedCfg) {σ : schedState} {a : action} (hInv : Inv cfg σ)
    (hfacts : dispatchFacts cfg.startVM cfg.nrVMs σ.st a) :
    Inv cfg ⟨updatePre a σ.st, a :: σ.inflight⟩ := by
  obtain ⟨hT, hP, hA⟩ := hfacts
  cases a with
  | performTest run ids networkNames =>
    obtain ⟨hids, hnodup, hready⟩ := hT run ids networkNames rfl
    have hspec := getIDs_spec cfg.startVM cfg.nrVMs σ.st.freeIDs run.vms.length
    rw [← hids] at hspec
    obtain ⟨hidnd, hidsub⟩ := hspec
    refine ⟨?_, ?_, ?_, ?_, ?_, ?_⟩
    · show (deleteAll σ.st.freeIDs ids).val +
          ((List.map (fun a => Multiset.ofList (heldIDs a))
            (action.performTest run ids networkNames :: σ.inflight)).sum) =
          idRange cfg.startVM cfg.nrVMs
      rw [List.map_cons, List.sum_cons]
      have hdel := deleteAll_val σ.st.freeIDs ids hidnd hidsub
      calc (deleteAll σ.st.freeIDs ids).val +
            (Multiset.ofList (heldIDs (action.performTest run ids networkNames)) +
             (List.map (fun a => Multiset.ofList (heldIDs a)) σ.inflight).sum)
          = ((deleteAll σ.st.freeIDs ids).val + Multiset.ofList ids) +
             (List.map (fun a => Multiset.ofList (heldIDs a)) σ.inflight).sum := by
            rw [← add_assoc]
            rfl
        _ = σ.st.freeIDs.val +
             (List.map (fun a => Multiset.ofList (heldIDs a)) σ.inflight).sum := by
            rw [hdel]
        _ = idRange cfg.startVM cfg.nrVMs := hInv.ids_partition
    · exact density_foldl_update networkStage.busy networkNames hInv.density
    · intro nm network access hm
      rcases List.mem_cons.1 hm with he | hm'
      · exact absurd he (by simp)
      · obtain ⟨ns, hl, hst⟩ := hInv.addLinked nm network access hm'
        have hnot : nm ∉ networkNames :=
          notmem_of_stage_ne networkNames hl hready (by rw [hst]; simp)
        show ∃ ns', alookup nm (networkNames.foldl
          (fun nets nm => updateNetStage nm networkStage.busy nets) σ.st.networks) =
            some ns' ∧ ns'.stage = networkStage.add
        rw [alookup_foldl_update_notmem networkStage.busy nm networkNames _ hnot]
        exact ⟨ns, hl, hst⟩
    · show inflightAddCount (action.performTest run ids networkNames :: σ.inflight) ≤ 1
      rw [inflightAddCount, List.countP_cons]
      have := hInv.addCount
      rw [inflightAddCount] at this
      simpa [isAddNetwork] using this
    · intro b hb nm hnm
      rcases List.mem_cons.1 hb with rfl | hb'
      · obtain ⟨ns, hl, hst⟩ := hready nm hnm
        exact ⟨{ ns with stage := networkStage.busy },
          alookup_foldl_update_mem networkStage.busy nm ns networkNames _ hnodup hnm hl, rfl⟩
      · obtain ⟨ns, hl, hst⟩ := hInv.heldBusy b hb' nm hnm
        have hnot : nm ∉ networkNames :=
          notmem_of_stage_ne networkNames hl hready (by rw [hst]; simp)
        show ∃ ns', alookup nm (networkNames.foldl
          (fun nets nm => updateNetStage nm networkStage.busy nets) σ.st.networks) =
            some ns' ∧ ns'.stage = networkStage.busy
        rw [alookup_foldl_update_notmem networkStage.busy nm networkNames _ hnot]
        exact ⟨ns, hl, hst⟩
    · show ((List.map heldNets
        (action.performTest run ids networkNames :: σ.inflight)).flatten).Nodup
      rw [List.map_cons, List.flatten_cons, List.nodup_append]
      refine ⟨hnodup, hInv.heldNodup, ?_⟩
      intro nm hnm1 hnm2
      obtain ⟨lnets, hlmem, hnmem⟩ := List.mem_flatten.1 hnm2
      obtain ⟨b, hbmem, rfl⟩ := List.mem_map.1 hlmem
      obtain ⟨ns, hl, hst⟩ := hInv.heldBusy b hbmem nm hnmem
      obtain ⟨ns', hl', hst'⟩ := hready nm hnm1
      rw [hl] at hl'
      injection hl' with hl'
      rw [← hl'] at hst'
      rw [hst] at hst'
      exact absurd hst' (by simp)
  | pullImage image =>
    refine ⟨?_, hInv.density, ?_, ?_, ?_, ?_⟩
    · show σ.st.freeIDs.val +
          ((List.map (fun a => Multiset.ofList (heldIDs a))
            (action.pullImage image :: σ.inflight)).sum) = idRange cfg.startVM cfg.nrVMs
      rw [List.map_cons, List.sum_cons]
      rw [show Multiset.ofList (heldIDs (action.pullImage image)) = 0 from rfl, zero_add]
      exact hInv.ids_partition
    · intro nm network access hm
      rcases List.mem_cons.1 hm with he | hm'
      · exact absurd he (by simp)
      · exact hInv.addLinked nm network access hm'
    · show inflightAddCount (action.pullImage image :: σ.inflight) ≤ 1
      rw [inflightAddCount, List.countP_cons]
      have := hInv.addCount
      rw [inflightAddCount] at this
      simpa [isAddNetwork] using this
    · intro b hb nm hnm
      rcases List.mem_cons.1 hb with rfl | hb'
      · exact absurd hnm (by simp [heldNets])
      · exact hInv.heldBusy b hb' nm hnm
    · show ((List.map heldNets (action.pullImage image :: σ.inflight)).flatten).Nodup
      rw [List.map_cons, List.flatten_cons]
      simpa [heldNets] using hInv.heldNodup
  | provisionImage v id networkName =>
    obtain ⟨hid, ns0, hl0, hst0⟩ := hP v id networkName rfl
    have hidfree : id ∈ σ.st.freeIDs :=
      (getIDs_spec cfg.startVM cfg.nrVMs σ.st.freeIDs 1).2 id hid
    refine ⟨?_, ?_, ?_, ?_, ?_, ?_⟩
    · show (σ.st.freeIDs.erase id).val +
          ((List.map (fun a => Multiset.ofList (heldIDs a))
            (action.provisionImage v id networkName :: σ.inflight)).sum) =
          idRange cfg.startVM cfg.nrVMs
      rw [List.map_cons, List.sum_cons]
      have herase : (σ.st.freeIDs.erase id).val +
          Multiset.ofList (heldIDs (action.provisionImage v id networkName)) =
          σ.st.freeIDs.val := by
        show (σ.st.freeIDs.erase id).val + (id ::ₘ 0) = σ.st.freeIDs.val
        rw [Multiset.add_cons, add_zero, Finset.erase_val]
        exact Multiset.cons_erase (Finset.mem_def.1 hidfree)
      calc (σ.st.freeIDs.erase id).val +
            (Multiset.ofList (heldIDs (action.provisionImage v id networkName)) +
             (List.map (fun a => Multiset.ofList (heldIDs a)) σ.inflight).sum)
          = ((σ.st.freeIDs.erase id).val +
              Multiset.ofList (heldIDs (action.provisionImage v id networkName))) +
             (List.map (fun a => Multiset.ofList (heldIDs a)) σ.inflight).sum := by
            rw [← add_assoc]
        _ = σ.st.freeIDs.val +
             (List.map (fun a => Multiset.ofList (heldIDs a)) σ.inflight).sum := by
            rw [herase]
        _ = idRange cfg.startVM cfg.nrVMs := hInv.ids_partition
    · exact density_updateNetStage networkName networkStage.busy hInv.density
    · intro nm network access hm
      rcases List.mem_cons.1 hm with he | hm'
      · exact absurd he (by simp)
      · obtain ⟨ns, hl, hst⟩ := hInv.addLinked nm network access hm'
        have hne : nm ≠ networkName :=
          ne_of_lookup_stage_ne hl hl0 (by rw [hst, hst0]; simp)
        show ∃ ns', alookup nm (updateNetStage networkName networkStage.busy σ.st.networks) =
            some ns' ∧ ns'.stage = networkStage.add
        rw [alookup_updateNetStage_ne nm networkName networkStage.busy hne]
        exact ⟨ns, hl, hst⟩
    · show inflightAddCount (action.provisionImage v id networkName :: σ.inflight) ≤ 1
      rw [inflightAddCount, List.countP_cons]
      have := hInv.addCount
      rw [inflightAddCount] at this
      simpa [isAddNetwork] using this
    · intro b hb nm hnm
      rcases List.mem_cons.1 hb with rfl | hb'
      · have hnm' : nm = networkName := by simpa [heldNets] using hnm
        subst hnm'
        refine ⟨{ ns0 with stage := networkStage.busy }, ?_, rfl⟩
        show alookup nm (updateNetStage nm networkStage.busy σ.st.networks) = _
        rw [alookup_updateNetStage_self, hl0]
        rfl
      · obtain ⟨ns, hl, hst⟩ := hInv.heldBusy b hb' nm hnm
        have hne : nm ≠ networkName :=
          ne_of_lookup_stage_ne hl hl0 (by rw [hst, hst0]; simp)
        show ∃ ns', alookup nm (updateNetStage networkName networkStage.busy σ.st.networks) =
            some ns' ∧ ns'.stage = networkStage.busy
        rw [alookup_updateNetStage_ne nm networkName networkStage.busy hne]
        exact ⟨ns, hl, hst⟩
    · show ((List.map heldNets
        (action.provisionImage v id networkName :: σ.inflight)).flatten).Nodup
      rw [List.map_cons, List.flatten_cons]
      have hflat : heldNets (action.provisionImage v id networkName) = [networkName] := rfl
      rw [hflat, List.nodup_append]
      refine ⟨by simp, hInv.heldNodup, ?_⟩
      intro nm hnm1 hnm2
      have hnm' : nm = networkName := by simpa using hnm1
      subst hnm'
      obtain ⟨lnets, hlmem, hnmem⟩ := List.mem_flatten.1 hnm2
      obtain ⟨b, hbmem, rfl⟩ := List.mem_map.1 hlmem
      obtain ⟨ns, hl, hst⟩ := hInv.heldBusy b hbmem nm hnmem
      rw [hl0] at hl
      injection hl with hl
      rw [hl] at hst0
      rw [hst] at hst0
      exact absurd hst0 (by simp)
  | addNetwork networkName network access =>
    obtain ⟨hnm, hnoadd⟩ := hA networkName network access rfl
    have hfresh : alookup networkName σ.st.networks = none := by
      cases hl : alookup networkName σ.st.networks with
      | none => rfl
      | some ns =>
        exfalso
        have hmem := mem_of_alookup_eq_some hl
        obtain ⟨j, hj⟩ := List.mem_iff_getElem?.1 hmem
        have hd := hInv.density j _ hj
        have hlt : j < σ.st.networks.length := (List.getElem?_eq_some.1 hj).1
        rw [hnm] at hd
        simp only [generateNetworkName, NName.mk.injEq] at hd
        omega
    have haset : (addNetworkUpdatePre networkName network access σ.st).networks =
        σ.st.networks ++ [(networkName, ⟨network, access, networkStage.add⟩)] := by
      rw [addNetworkUpdatePre_networks, aset_of_absent _ _ _ hfresh]
    have hzero : inflightAddCount σ.inflight = 0 := by
      rw [inflightAddCount, List.countP_eq_zero]
      intro b hb
      cases b with
      | addNetwork nm' network' access' =>
        exfalso
        obtain ⟨ns, hl, hst⟩ := hInv.addLinked nm' network' access' hb
        exact hnoadd _ (mem_of_alookup_eq_some hl) hst
      | performTest run ids networkNames => simp [isAddNetwork]
      | pullImage image => simp [isAddNetwork]
      | provisionImage v id nm' => simp [isAddNetwork]
    refine ⟨?_, ?_, ?_, ?_, ?_, ?_⟩
    · show (addNetworkUpdatePre networkName network access σ.st).freeIDs.val +
          ((List.map (fun a => Multiset.ofList (heldIDs a))
            (action.addNetwork networkName network access :: σ.inflight)).sum) =
          idRange cfg.startVM cfg.nrVMs
      rw [addNetworkUpdatePre_freeIDs, List.map_cons, List.sum_cons]
      rw [show Multiset.ofList (heldIDs (action.addNetwork networkName network access)) = 0
        from rfl, zero_add]
      exact hInv.ids_partition
    · show densityProp (addNetworkUpdatePre networkName network access σ.st).networks
      rw [haset]
      intro j kv hkv
      rw [List.getElem?_append] at hkv
      by_cases hj : j < σ.st.networks.length
      · rw [if_pos hj] at hkv
        exact hInv.density j kv hkv
      · rw [if_neg hj] at hkv
        push_neg at hj
        rcases hd : j - σ.st.networks.length with _ | k
        · rw [hd] at hkv
          simp only [List.getElem?_cons_zero, Option.some.injEq] at hkv
          rw [← hkv, hnm]
          have hjlen : j = σ.st.networks.length := by omega
          rw [hjlen]
        · rw [hd] at hkv
          simp at hkv
    · intro nm' network' access' hm
      rcases List.mem_cons.1 hm with he | hm'
      · injection he with he1 he2 he3
        subst he1
        subst he2
        subst he3
        show ∃ ns, alookup nm' (addNetworkUpdatePre nm' network' access' σ.st).networks =
            some ns ∧ ns.stage = networkStage.add
        rw [haset, alookup_append_of_none _ hfresh]
        exact ⟨⟨network', access', networkStage.add⟩, by simp [alookup], rfl⟩
      · exfalso
        obtain ⟨ns, hl, hst⟩ := hInv.addLinked nm' network' access' hm'
        exact hnoadd _ (mem_of_alookup_eq_some hl) hst
    · show inflightAddCount (action.addNetwork networkName network access :: σ.inflight) ≤ 1
      rw [inflightAddCount, List.countP_cons]
      rw [inflightAddCount] at hzero
      simp [isAddNetwork, hzero]
    · intro b hb nm hnm
      rcases List.mem_cons.1 hb with rfl | hb'
      · exact absurd hnm (by simp [heldNets])
      · obtain ⟨ns, hl, hst⟩ := hInv.heldBusy b hb' nm hnm
        show ∃ ns', alookup nm (addNetworkUpdatePre networkName network access σ.st).networks =
            some ns' ∧ ns'.stage = networkStage.busy
        rw [haset]
        exact ⟨ns, alookup_append_of_some _ hl, hst⟩
    · show ((List.map heldNets
        (action.addNetwork networkName network access :: σ.inflight)).flatten).Nodup
      rw [List.map_cons, List.flatten_cons]
      simpa [heldNets] using hInv.heldNodup

theorem Inv_completeTest (cfg : schedCfg) {σ : schedState} {l1 l2 : List action}
    {run : testRun} {ids : List ℕ} {networkNames : List NName} (res : testResult)
    (hInv : Inv cfg σ)
    (hin : σ.inflight = l1 ++ action.performTest run ids networkNames :: l2) :
    Inv cfg ⟨performTestUpdatePost run ids networkNames res σ.st, l1 ++ l2⟩ := by
  have hmemT : action.performTest run ids networkNames ∈ σ.inflight := by
    rw [hin]
    exact List.mem_append.2 (Or.inr (List.mem_cons_self _ _))
  have hbusy : ∀ nm ∈ networkNames, ∃ ns, alookup nm σ.st.networks = some ns ∧
      ns.stage = networkStage.busy := hInv.heldBusy _ hmemT
  have hflat : ((σ.inflight.map heldNets).flatten) =
      (l1.map heldNets).flatten ++ (networkNames ++ (l2.map heldNets).flatten) := by
    rw [hin]
    simp [List.map_append, heldNets]
  have hnodupAll := hInv.heldNodup
  rw [hflat, List.nodup_append] at hnodupAll
  obtain ⟨hF1, hrest, hdis1⟩ := hnodupAll
  rw [List.nodup_append] at hrest
  obtain ⟨hnetsnd, hF2, hdis2⟩ := hrest
  have hpart := hInv.ids_partition
  have hsum : ((σ.inflight.map (fun a => Multiset.ofList (heldIDs a))).sum) =
      (l1.map (fun a => Multiset.ofList (heldIDs a))).sum +
      (Multiset.ofList ids + (l2.map (fun a => Multiset.ofList (heldIDs a))).sum) := by
    rw [hin]
    simp [List.map_append, heldIDs]
  rw [hsum] at hpart
  have htotal : (σ.st.freeIDs.val +
      ((l1.map (fun a => Multiset.ofList (heldIDs a))).sum +
       (Multiset.ofList ids +
        (l2.map (fun a => Multiset.ofList (heldIDs a))).sum))).Nodup := by
    rw [hpart]
    exact idRange_nodup _ _
  rw [Multiset.nodup_add] at htotal
  obtain ⟨hfreend, hsumnd, hdisfree⟩ := htotal
  rw [Multiset.nodup_add] at hsumnd
  obtain ⟨-, hidsS2nd, -⟩ := hsumnd
  rw [Multiset.nodup_add] at hidsS2nd
  obtain ⟨hidsnd, -, -⟩ := hidsS2nd
  have hidsndl : ids.Nodup := Multiset.coe_nodup.1 hidsnd
  have hdisids : ∀ x ∈ ids, x ∉ σ.st.freeIDs := by
    intro x hx hxf
    refine Multiset.disjoint_left.1 hdisfree (Finset.mem_def.1 hxf) ?_
    rw [Multiset.mem_add]
    right
    rw [Multiset.mem_add]
    left
    exact Multiset.mem_coe.2 hx
  have hins := insertAll_val σ.st.freeIDs ids hidsndl hdisids
  refine ⟨?_, ?_, ?_, ?_, ?_, ?_⟩
  · show (ids.foldl (fun m id => insert id m) σ.st.freeIDs).val +
        (((l1 ++ l2).map (fun a => Multiset.ofList (heldIDs a))).sum) =
        idRange cfg.startVM cfg.nrVMs
    have hsum2 : (((l1 ++ l2).map (fun a => Multiset.ofList (heldIDs a))).sum) =
        (l1.map (fun a => Multiset.ofList (heldIDs a))).sum +
        (l2.map (fun a => Multiset.ofList (heldIDs a))).sum := by
      simp [List.map_append]
    rw [hins, hsum2, ← hpart, add_assoc, add_left_comm (Multiset.ofList ids)]
  · exact density_foldl_update networkStage.ready networkNames hInv.density
  · intro nm network access hm
    have hm' : action.addNetwork nm network access ∈ σ.inflight := by
      rw [hin]
      rcases List.mem_append.1 hm with h | h
      · exact List.mem_append.2 (Or.inl h)
      · exact List.mem_append.2 (Or.inr (List.mem_cons_of_mem _ h))
    obtain ⟨ns, hl, hst⟩ := hInv.addLinked nm network access hm'
    have hnot : nm ∉ networkNames :=
      notmem_of_stage_ne networkNames hl hbusy (by rw [hst]; simp)
    show ∃ ns', alookup nm (networkNames.foldl
      (fun nets nm => updateNetStage nm networkStage.ready nets) σ.st.networks) =
        some ns' ∧ ns'.stage = networkStage.add
    rw [alookup_foldl_update_notmem networkStage.ready nm networkNames _ hnot]
    exact ⟨ns, hl, hst⟩
  · show inflightAddCount (l1 ++ l2) ≤ 1
    have hold := hInv.addCount
    rw [hin] at hold
    rw [inflightAddCount, List.countP_append] at hold ⊢
    rw [List.countP_cons] at hold
    omega
  · intro b hb nm hnm
    have hnotnets : nm ∉ networkNames := by
      intro hmm
      rcases List.mem_append.1 hb with h | h
      · exact hdis1 (List.mem_flatten.2 ⟨heldNets b, List.mem_map.2 ⟨b, h, rfl⟩, hnm⟩)
          (List.mem_append.2 (Or.inl hmm))
      · exact hdis2 hmm (List.mem_flatten.2 ⟨heldNets b, List.mem_map.2 ⟨b, h, rfl⟩, hnm⟩)
    have hb' : b ∈ σ.inflight := by
      rw [hin]
      rcases List.mem_append.1 hb with h | h
      · exact List.mem_append.2 (Or.inl h)
      · exact List.mem_append.2 (Or.inr (List.mem_cons_of_mem _ h))
    obtain ⟨ns, hl, hst⟩ := hInv.heldBusy b hb' nm hnm
    show ∃ ns', alookup nm (networkNames.foldl
      (fun nets nm => updateNetStage nm networkStage.ready nets) σ.st.networks) =
        some ns' ∧ ns'.stage = networkStage.busy
    rw [alookup_foldl_update_notmem networkStage.ready nm networkNames _ hnotnets]
    exact ⟨ns, hl, hst⟩
  · show (((l1 ++ l2).map heldNets).flatten).Nodup
    have : ((l1 ++ l2).map heldNets).flatten =
        (l1.map heldNets).flatten ++ (l2.map heldNets).flatten := by
      simp [List.map_append]
    rw [this, List.nodup_append]
    refine ⟨hF1, hF2, ?_⟩
    intro nm h1 h2
    exact hdis1 h1 (List.mem_append.2 (Or.inr h2))

theorem Inv_completePull (cfg : schedCfg) {σ : schedState} {l1 l2 : List action}
    {image : String} (e : Option GoErr) (hInv : Inv cfg σ)
    (hin : σ.inflight = l1 ++ action.pullImage image :: l2) :
    Inv cfg ⟨pullImageUpdatePost image e σ.st, l1 ++ l2⟩ := by
  have hfields : (pullImageUpdatePost image e σ.st).freeIDs = σ.st.freeIDs ∧
      (pullImageUpdatePost image e σ.st).networks = σ.st.networks := by
    cases e <;> exact ⟨rfl, rfl⟩
  have hmem' : ∀ b ∈ l1 ++ l2, b ∈ σ.inflight := by
    intro b hb
    rw [hin]
    rcases List.mem_append.1 hb with h | h
    · exact List.mem_append.2 (Or.inl h)
    · exact List.mem_append.2 (Or.inr (List.mem_cons_of_mem _ h))
  refine ⟨?_, ?_, ?_, ?_, ?_, ?_⟩
  · show (pullImageUpdatePost image e σ.st).freeIDs.val +
        (((l1 ++ l2).map (fun a => Multiset.ofList (heldIDs a))).sum) =
        idRange cfg.startVM cfg.nrVMs
    rw [hfields.1]
    have hpart := hInv.ids_partition
    rw [hin] at hpart
    simpa [List.map_append, heldIDs] using hpart
  · show densityProp (pullImageUpdatePost image e σ.st).networks
    rw [hfields.2]
    exact hInv.density
  · intro nm network access hm
    show ∃ ns, alookup nm (pullImageUpdatePost image e σ.st).networks = some ns ∧
      ns.stage = networkStage.add
    rw [hfields.2]
    exact hInv.addLinked nm network access (hmem' _ hm)
  · show inflightAddCount (l1 ++ l2) ≤ 1
    have hold := hInv.addCount
    rw [hin] at hold
    rw [inflightAddCount, List.countP_append] at hold ⊢
    rw [List.countP_cons] at hold
    omega
  · intro b hb nm hnm
    show ∃ ns, alookup nm (pullImageUpdatePost image e σ.st).networks = some ns ∧
      ns.stage = networkStage.busy
    rw [hfields.2]
    exact hInv.heldBusy b (hmem' _ hb) nm hnm
  · show (((l1 ++ l2).map heldNets).flatten).Nodup
    have hold := hInv.heldNodup
    rw [hin] at hold
    simpa [List.map_append, heldNets] using hold

theorem Inv_completeProvision (cfg : schedCfg) {σ : schedState} {l1 l2 : List action}
    {v : vm} {id : ℕ} {networkName : NName} (e : Option GoErr) (hInv : Inv cfg σ)
    (hin : σ.inflight = l1 ++ action.provisionImage v id networkName :: l2) :
    Inv cfg ⟨provisionImageUpdatePost v id networkName e σ.st, l1 ++ l2⟩ := by
  have hfields : (provisionImageUpdatePost v id networkName e σ.st).freeIDs =
      insert id σ.st.freeIDs ∧
      (provisionImageUpdatePost v id networkName e σ.st).networks =
        updateNetStage networkName networkStage.ready σ.st.networks := by
    cases e <;> exact ⟨rfl, rfl⟩
  have hmemP : action.provisionImage v id networkName ∈ σ.inflight := by
    rw [hin]
    exact List.mem_append.2 (Or.inr (List.mem_cons_self _ _))
  obtain ⟨nsB, hlB, hstB⟩ :=
    hInv.heldBusy _ hmemP networkName (by simp [heldNets])
  have hmem' : ∀ b ∈ l1 ++ l2, b ∈ σ.inflight := by
    intro b hb
    rw [hin]
    rcases List.mem_append.1 hb with h | h
    · exact List.mem_append.2 (Or.inl h)
    · exact List.mem_append.2 (Or.inr (List.mem_cons_of_mem _ h))
  have hflat : ((σ.inflight.map heldNets).flatten) =
      (l1.map heldNets).flatten ++ ([networkName] ++ (l2.map heldNets).flatten) := by
    rw [hin]
    simp [List.map_append, heldNets]
  have hnodupAll := hInv.heldNodup
  rw [hflat, List.nodup_append] at hnodupAll
  obtain ⟨hF1, hrest, hdis1⟩ := hnodupAll
  rw [List.nodup_append] at hrest
  obtain ⟨-, hF2, hdis2⟩ := hrest
  have hpart := hInv.ids_partition
  have hsum : ((σ.inflight.map (fun a => Multiset.ofList (heldIDs a))).sum) =
      (l1.map (fun a => Multiset.ofList (heldIDs a))).sum +
      (Multiset.ofList [id] + (l2.map (fun a => Multiset.ofList (heldIDs a))).sum) := by
    rw [hin]
    simp [List.map_append, heldIDs]
  rw [hsum] at hpart
  have htotal : (σ.st.freeIDs.val +
      ((l1.map (fun a => Multiset.ofList (heldIDs a))).sum +
       (Multiset.ofList [id] +
        (l2.map (fun a => Multiset.ofList (heldIDs a))).sum))).Nodup := by
    rw [hpart]
    exact idRange_nodup _ _
  rw [Multiset.nodup_add] at htotal
  obtain ⟨-, -, hdisfree⟩ := htotal
  have hidnotfree : id ∉ σ.st.freeIDs := by
    intro hxf
    refine Multiset.disjoint_left.1 hdisfree (Finset.mem_def.1 hxf) ?_
    rw [Multiset.mem_add]
    right
    rw [Multiset.mem_add]
    left
    exact Multiset.mem_coe.2 (List.mem_singleton.2 rfl)
  have hinsval : (insert id σ.st.freeIDs).val = id ::ₘ σ.st.freeIDs.val := by
    rw [Finset.insert_val, Multiset.ndinsert_of_not_mem hidnotfree]
  refine ⟨?_, ?_, ?_, ?_, ?_, ?_⟩
  · show (provisionImageUpdatePost v id networkName e σ.st).freeIDs.val +
        (((l1 ++ l2).map (fun a => Multiset.ofList (heldIDs a))).sum) =
        idRange cfg.startVM cfg.nrVMs
    rw [hfields.1, hinsval]
    have hsum2 : (((l1 ++ l2).map (fun a => Multiset.ofList (heldIDs a))).sum) =
        (l1.map (fun a => Multiset.ofList (heldIDs a))).sum +
        (l2.map (fun a => Multiset.ofList (heldIDs a))).sum := by
      simp [List.map_append]
    rw [hsum2, ← hpart]
    have hone : Multiset.ofList [id] = id ::ₘ 0 := rfl
    rw [hone, Multiset.cons_add, Multiset.cons_add, zero_add, Multiset.add_cons,
      Multiset.add_cons]
  · show densityProp (provisionImageUpdatePost v id networkName e σ.st).networks
    rw [hfields.2]
    exact density_updateNetStage networkName networkStage.ready hInv.density
  · intro nm network access hm
    obtain ⟨ns, hl, hst⟩ := hInv.addLinked nm network access (hmem' _ hm)
    have hne : nm ≠ networkName :=
      ne_of_lookup_stage_ne hl hlB (by rw [hst, hstB]; simp)
    show ∃ ns', alookup nm (provisionImageUpdatePost v id networkName e σ.st).networks =
        some ns' ∧ ns'.stage = networkStage.add
    rw [hfields.2, alookup_updateNetStage_ne nm networkName networkStage.ready hne]
    exact ⟨ns, hl, hst⟩
  · show inflightAddCount (l1 ++ l2) ≤ 1
    have hold := hInv.addCount
    rw [hin] at hold
    rw [inflightAddCount, List.countP_append] at hold ⊢
    rw [List.countP_cons] at hold
    omega
  · intro b hb nm hnm
    have hnotsame : nm ≠ networkName := by
      intro he
      subst he
      rcases List.mem_append.1 hb with h | h
      · exact hdis1 (List.mem_flatten.2 ⟨heldNets b, List.mem_map.2 ⟨b, h, rfl⟩, hnm⟩)
          (List.mem_append.2 (Or.inl (List.mem_singleton.2 rfl)))
      · exact hdis2 (List.mem_singleton.2 rfl)
          (List.mem_flatten.2 ⟨heldNets b, List.mem_map.2 ⟨b, h, rfl⟩, hnm⟩)
    obtain ⟨ns, hl, hst⟩ := hInv.heldBusy b (hmem' _ hb) nm hnm
    show ∃ ns', alookup nm (provisionImageUpdatePost v id networkName e σ.st).networks =
        some ns' ∧ ns'.stage = networkStage.busy
    rw [hfields.2, alookup_updateNetStage_ne nm networkName networkStage.ready hnotsame]
    exact ⟨ns, hl, hst⟩
  · show (((l1 ++ l2).map heldNets).flatten).Nodup
    have : ((l1 ++ l2).map heldNets).flatten =
        (l1.map heldNets).flatten ++ (l2.map heldNets).flatten := by
      simp [List.map_append]
    rw [this, List.nodup_append]
    refine ⟨hF1, hF2, ?_⟩
    intro nm h1 h2
    exact hdis1 h1 (List.mem_append.2 (Or.inr h2))

theorem Inv_completeAddNetwork (cfg : schedCfg) {σ : schedState} {l1 l2 : List action}
    {networkName : NName} {network : virterNet} {access : Bool} (e : Option GoErr)
    (hInv : Inv cfg σ)
    (hin : σ.inflight = l1 ++ action.addNetwork networkName network access :: l2) :
    Inv cfg ⟨addNetworkUpdatePost networkName e σ.st, l1 ++ l2⟩ := by
  have hfields : ∃ st, (addNetworkUpdatePost networkName e σ.st).networks =
      updateNetStage networkName st σ.st.networks ∧
      (addNetworkUpdatePost networkName e σ.st).freeIDs = σ.st.freeIDs := by
    cases e
    · exact ⟨networkStage.ready, rfl, rfl⟩
    · exact ⟨networkStage.error, rfl, rfl⟩
  obtain ⟨st, hnet, hfree⟩ := hfields
  have hmemA : action.addNetwork networkName network access ∈ σ.inflight := by
    rw [hin]
    exact List.mem_append.2 (Or.inr (List.mem_cons_self _ _))
  obtain ⟨nsA, hlA, hstA⟩ := hInv.addLinked networkName network access hmemA
  have hcnt := hInv.addCount
  rw [hin, inflightAddCount, List.countP_append, List.countP_cons] at hcnt
  have hisadd : isAddNetwork (action.addNetwork networkName network access) = true := rfl
  rw [hisadd] at hcnt
  simp only [if_pos] at hcnt
  have hzero1 : List.countP isAddNetwork l1 = 0 := by omega
  have hzero2 : List.countP isAddNetwork l2 = 0 := by omega
  have hmem' : ∀ b ∈ l1 ++ l2, b ∈ σ.inflight := by
    intro b hb
    rw [hin]
    rcases List.mem_append.1 hb with h | h
    · exact List.mem_append.2 (Or.inl h)
    · exact List.mem_append.2 (Or.inr (List.mem_cons_of_mem _ h))
  refine ⟨?_, ?_, ?_, ?_, ?_, ?_⟩
  · show (addNetworkUpdatePost networkName e σ.st).freeIDs.val +
        (((l1 ++ l2).map (fun a => Multiset.ofList (heldIDs a))).sum) =
        idRange cfg.startVM cfg.nrVMs
    rw [hfree]
    have hpart := hInv.ids_partition
    rw [hin] at hpart
    simpa [List.map_append, heldIDs] using hpart
  · show densityProp (addNetworkUpdatePost networkName e σ.st).networks
    rw [hnet]
    exact density_updateNetStage networkName st hInv.density
  · intro nm network' access' hm
    exfalso
    have hpos : 0 < List.countP isAddNetwork (l1 ++ l2) :=
      List.countP_pos_iff.2 ⟨action.addNetwork nm network' access', hm, rfl⟩
    rw [List.countP_append, hzero1, hzero2] at hpos
    omega
  · show inflightAddCount (l1 ++ l2) ≤ 1
    rw [inflightAddCount, List.countP_append, hzero1, hzero2]
    omega
  · intro b hb nm hnm
    obtain ⟨ns, hl, hst⟩ := hInv.heldBusy b (hmem' _ hb) nm hnm
    have hne : nm ≠ networkName :=
      ne_of_lookup_stage_ne hl hlA (by rw [hst, hstA]; simp)
    show ∃ ns', alookup nm (addNetworkUpdatePost networkName e σ.st).networks =
        some ns' ∧ ns'.stage = networkStage.busy
    rw [hnet, alookup_updateNetStage_ne nm networkName st hne]
    exact ⟨ns, hl, hst⟩
  · show (((l1 ++ l2).map heldNets).flatten).Nodup
    have hold := hInv.heldNodup
    rw [hin] at hold
    simpa [List.map_append, heldNets] using hold

/-- The invariant holds in every reachable state of the scheduling loop. -/
theorem Inv_reachable (cfg : schedCfg) {σ : schedState} (h : Reachable cfg σ) :
    Inv cfg σ := by
  induction h with
  | init => exact Inv_init cfg
  | step hr hs ih =>
    cases hs with
    | dispatch a ha => exact Inv_dispatch cfg ih (chooseNextAction_inv ha)
    | completeTest l1 l2 run ids networkNames res hin =>
      exact Inv_completeTest cfg res ih hin
    | completePull l1 l2 image e hin => exact Inv_completePull cfg e ih hin
    | completeProvision l1 l2 v id networkName e hin =>
      exact Inv_completeProvision cfg e ih hin
    | completeAddNetwork l1 l2 networkName network access e hin =>
      exact Inv_completeAddNetwork cfg e ih hin

/-- **C1.** VM slot ID conservation: in every state reachable by the
scheduler loop (`initializeState` followed by any interleaving of
`updatePre`/`updatePost` of dispatched actions), the number of free IDs plus
the number of IDs held by in-flight `performTestAction` and
`provisionImageAction` actions equals `nrVMs`, and every ID in
`[startVM, startVM+nrVMs)` is either in the free set (and held by no action)
or held by exactly one in-flight action — never both, never two actions. -/
theorem scheduler_id_conservation (cfg : schedCfg) (σ : schedState)
    (h : Reachable cfg σ) :
    σ.st.freeIDs.card + ((σ.inflight.map (fun a => (heldIDs a).length)).sum) = cfg.nrVMs ∧
    ∀ id, cfg.startVM ≤ id → id < cfg.startVM + cfg.nrVMs →
      ((id ∈ σ.st.freeIDs ∧ ((σ.inflight.map heldIDs).flatten).count id = 0) ∨
       (id ∉ σ.st.freeIDs ∧ ((σ.inflight.map heldIDs).flatten).count id = 1)) := by
  have hpart := (Inv_reachable cfg h).ids_partition
  have hmapmap : σ.inflight.map (fun a => Multiset.ofList (heldIDs a)) =
      (σ.inflight.map heldIDs).map Multiset.ofList := by
    rw [List.map_map]
    rfl
  constructor
  · have hcard := congrArg Multiset.card hpart
    rw [Multiset.card_add, card_list_sum] at hcard
    have h1 : Multiset.card σ.st.freeIDs.val = σ.st.freeIDs.card := rfl
    have h2 : ((σ.inflight.map (fun a => Multiset.ofList (heldIDs a))).map
        (fun s => Multiset.card s)) = σ.inflight.map (fun a => (heldIDs a).length) := by
      rw [List.map_map]
      rfl
    have h3 : Multiset.card (idRange cfg.startVM cfg.nrVMs) = cfg.nrVMs := by
      rw [idRange]
      simp
    rw [h1, h2, h3] at hcard
    exact hcard
  · intro id hlo hhi
    have hcount := congrArg (Multiset.count id) hpart
    rw [Multiset.count_add] at hcount
    have hflatsum : ((σ.inflight.map (fun a => Multiset.ofList (heldIDs a))).sum) =
        Multiset.ofList ((σ.inflight.map heldIDs).flatten) := by
      rw [hmapmap, ← coe_flatten_eq_sum]
    rw [hflatsum] at hcount
    have hflc : Multiset.count id (Multiset.ofList ((σ.inflight.map heldIDs).flatten)) =
        ((σ.inflight.map heldIDs).flatten).count id := by
      exact Multiset.coe_count id _
    rw [hflc] at hcount
    have hrange1 : Multiset.count id (idRange cfg.startVM cfg.nrVMs) = 1 :=
      Multiset.count_eq_one_of_mem (idRange_nodup _ _)
        ((mem_idRange _ _ _).2 ⟨hlo, hhi⟩)
    rw [hrange1] at hcount
    by_cases hf : id ∈ σ.st.freeIDs
    · left
      refine ⟨hf, ?_⟩
      have : Multiset.count id σ.st.freeIDs.val = 1 :=
        Multiset.count_eq_one_of_mem σ.st.freeIDs.nodup (Finset.mem_def.1 hf)
      omega
    · right
      refine ⟨hf, ?_⟩
      have : Multiset.count id σ.st.freeIDs.val = 0 :=
        Multiset.count_eq_zero_of_not_mem (fun hm => hf (Finset.mem_def.2 hm))
      omega

/-- **C2.** AddNetwork serialization: in every reachable scheduler state at
most one `addNetworkAction` is in flight, each in-flight one owns a network
in stage `Add` (put there by its `updatePre`, left only by its `updatePost`),
and `makeAddNetworkAction` returns `none` whenever any network in the state
map is in stage `Add` — so a second AddNetwork can never be dispatched while
one is executing. -/
theorem addNetwork_serialized (cfg : schedCfg) (σ : schedState)
    (h : Reachable cfg σ) :
    inflightAddCount σ.inflight ≤ 1 ∧
    (∀ nm network access, action.addNetwork nm network access ∈ σ.inflight →
       ∃ ns, alookup nm σ.st.networks = some ns ∧ ns.stage = networkStage.add) ∧
    (∀ (s : suiteState) (network : virterNet) (access : Bool),
       (∃ kv ∈ s.networks, kv.2.stage = networkStage.add) →
       makeAddNetworkAction s network access = none) := by
  refine ⟨(Inv_reachable cfg h).addCount, (Inv_reachable cfg h).addLinked, ?_⟩
  intro s network access ⟨kv, hkv, hst⟩
  rw [makeAddNetworkAction, if_pos]
  exact List.any_eq_true.2 ⟨kv, hkv, by simp [hst]⟩

/-- **C10.** Dense network naming: in every reachable scheduler state the
`j`-th entry of the networks map is keyed `generateNetworkName j t` where `t`
is that network's access flag (each new network is named after the map size
at creation and none is ever deleted), and consequently `findReadyNetwork`
returns no name exactly when no `Ready`, non-excluded network with exactly
matching spec fields and the requested access flag exists. -/
theorem network_names_dense (cfg : schedCfg) (σ : schedState)
    (h : Reachable cfg σ) :
    densityProp σ.st.networks ∧
    (∀ (exclude : List NName) (network : virterNet) (access : Bool),
       findReadyNetwork σ.st exclude network access = none ↔
       ¬∃ nm ns, alookup nm σ.st.networks = some ns ∧
         ns.stage = networkStage.ready ∧ nm ∉ exclude ∧
         ns.network.ForwardMode = network.ForwardMode ∧
         ns.network.DHCP = network.DHCP ∧
         ns.network.Domain = network.Domain ∧
         ns.network.IPv6 = network.IPv6 ∧
         ns.isAccess = access) := by
  have hdensity := (Inv_reachable cfg h).density
  refine ⟨hdensity, ?_⟩
  intro exclude network access
  constructor
  · rintro hnone ⟨nm, ns, hl, hst, hex, hf1, hf2, hf3, hf4, hacc⟩
    have hmem := mem_of_alookup_eq_some hl
    obtain ⟨j, hj⟩ := List.mem_iff_getElem?.1 hmem
    have hlt : j < σ.st.networks.length := (List.getElem?_eq_some.1 hj).1
    have hnm : nm = generateNetworkName j access := by
      have := hdensity j _ hj
      simp only at this
      rw [this, hacc]
    have htry : tryReadyNetworkAt σ.st.networks exclude network access j = some nm := by
      rw [tryReadyNetworkAt]
      rw [← hnm, hl]
      simp [hst, hex, hf1, hf2, hf3, hf4, hacc]
    have hall := findReadyNetworkGo_none hnone j (List.mem_range.2 hlt)
    rw [htry] at hall
    exact absurd hall (by simp)
  · intro hno
    cases hfr : findReadyNetwork σ.st exclude network access with
    | none => rfl
    | some nm =>
      exfalso
      obtain ⟨ns, hl, hst, hex, hf1, hf2, hf3, hf4, hacc, -⟩ := findReadyNetwork_spec hfr
      exact hno ⟨nm, ns, hl, hst, hex, hf1, hf2, hf3, hf4, hacc⟩

/-- A small concrete scheduler configuration: 2 VM slots starting at ID 5. -/
def exCfg : schedCfg :=
  ⟨5, 2, [], [], false, false, exV4Base, ⟨true, 0, 64⟩⟩

/-- The initial state of the scheduling loop for `exCfg`. -/
def exInitState : schedState := ⟨initializeState exCfg, []⟩

theorem scheduler_id_conservation_witness :
    Reachable exCfg exInitState ∧
    exInitState.st.freeIDs.card +
      ((exInitState.inflight.map (fun a => (heldIDs a).length)).sum) = exCfg.nrVMs :=
  ⟨Reachable.init, (scheduler_id_conservation exCfg exInitState Reachable.init).1⟩

theorem addNetwork_serialized_witness :
    Reachable exCfg exInitState ∧ inflightAddCount exInitState.inflight ≤ 1 :=
  ⟨Reachable.init, (addNetwork_serialized exCfg exInitState Reachable.init).1⟩

theorem network_names_dense_witness :
    Reachable exCfg exInitState ∧ densityProp exInitState.st.networks :=
  ⟨Reachable.init, (network_names_dense exCfg exInitState Reachable.init).1⟩

/-! ## Teardown (`network_list.go`: `tearDown`, `network.go`: `removeNetwork`) -/

/-- `tearDown` from the scheduler: with errors under the keep-vms policy the
networks are kept; otherwise every created network is removed via
`removeNetwork` (an external subprocess, outcome given by the oracle
`removeResult`), accumulating removal errors.  Note that the subnet allocator
`state.freeNets` is never consulted. -/
def tearDown (onFailure : FailurePolicy) (removeResult : NName → Option GoErr)
    (s : suiteState) : suiteState :=
  if s.errors.length > 0 ∧ onFailure = FailurePolicy.onFailureKeepVms then s
  else
    s.networks.foldl (fun st kv =>
      match removeResult kv.1 with
      | some e => { st with errors := st.errors ++ [e] }
      | Option.none => st) s

theorem tearDown_foldl_preserves (removeResult : NName → Option GoErr) :
    ∀ (l : List (NName × networkState)) (st : suiteState),
      (l.foldl (fun st kv =>
        match removeResult kv.1 with
        | some e => { st with errors := st.errors ++ [e] }
        | Option.none => st) st).freeNets = st.freeNets ∧
      (l.foldl (fun st kv =>
        match removeResult kv.1 with
        | some e => { st with errors := st.errors ++ [e] }
        | Option.none => st) st).networks = st.networks := by
  intro l
  induction l with
  | nil =>
    intro st
    exact ⟨rfl, rfl⟩
  | cons kv rest ih =>
    intro st
    rw [List.foldl_cons]
    cases removeResult kv.1 with
    | none => exact ih st
    | some e => exact ih _

/-- A state in which the single access network `vmshed-0-access` owns the
subnet block `exV4Base` (the allocator is `exList1`, where that block is
recorded as reserved, i.e. mapped to `false`). -/
def exTearState : suiteState :=
  { networks := [(generateNetworkName 0 true,
      ⟨accessNetwork false, true, networkStage.ready⟩)]
    baseImage := []
    imageStage := []
    runStage := []
    runResults := []
    freeIDs := ∅
    freeNets := exList1
    errors := [] }

/-- **C7 counterexample.** The claim says that when a network that reserved
subnet blocks is removed during teardown, those blocks are returned to the
subnet allocator's free set (`Free` invoked for each owned block).  In the
code, `tearDown` removes the network via the external tool but never touches
`state.freeNets`: after tearing down `exTearState` — whose only network owns
the block `exV4Base` — the allocator is unchanged and the block is still
marked reserved (`false`), whereas `Free` would have marked it reusable
(`true`). -/
theorem tearDown_does_not_free_subnets :
    (tearDown FailurePolicy.onFailureTerminate (fun _ => none) exTearState).freeNets =
      exTearState.freeNets ∧
    alookup exV4Base
      (tearDown FailurePolicy.onFailureTerminate (fun _ => none) exTearState).freeNets.freeNets =
      some false ∧
    (Free exTearState.freeNets (some exV4Base)).freeNets ≠
      (tearDown FailurePolicy.onFailureTerminate (fun _ => none) exTearState).freeNets.freeNets := by
  refine ⟨rfl, rfl, ?_⟩
  intro h
  have : ((exV4Base, true) :: []) = ((exV4Base, false) :: []) := h
  simp at this

/-- **C7 (amended).** Subnet blocks reserved by a network are never returned
to the allocator's free set when networks are removed: `tearDown` leaves the
subnet allocator (and the networks map) of the state exactly as they were,
for every failure policy, every removal outcome, and every state; `Free` is
never invoked by the scheduler or the teardown path. -/
theorem tearDown_preserves_allocator (onFailure : FailurePolicy)
    (removeResult : NName → Option GoErr) (s : suiteState) :
    (tearDown onFailure removeResult s).freeNets = s.freeNets ∧
    (tearDown onFailure removeResult s).networks = s.networks := by
  rw [tearDown]
  split_ifs with hif
  · exact ⟨rfl, rfl⟩
  · exact tearDown_foldl_preserves removeResult s.networks s

/-! ## Concrete inputs for the run-expansion witness -/

/-- A test with `needallplatforms = true`, one VM count. -/
def exTest : test := ⟨[1], [], false, true, [], []⟩

/-- A VM descriptor carrying the tag `zfs`. -/
def exVm : vm := ⟨"vm1", "img1", ["zfs"]⟩

/-- A test configuration over `exTest` with a single matching VM. -/
def exTestConfig : testConfig := ⟨"log", [exVm], "list", exTest, 1, []⟩

/-- A variant requiring a tag no VM has (its matching set is empty). -/
def exVariantEmpty : variant := ⟨"etcd", [], false, ["missing"]⟩

/-- The default variant. -/
def exVariant : variant := ⟨"default", [], false, []⟩

theorem determineRunsForTest_admissibility_witness :
    exTestConfig.test.NeedAllPlatforms = true ∧
    matchingVMTags exTestConfig.test.VMTags
      (matchingVMTags exVariantEmpty.VMTags exTestConfig.vmSpecVMs) = [] ∧
    (∃ runs, determineRunsForTestVariant exTestConfig (fun _ => 0) 1 exVariant [exVm] 0 =
        .ok (runs, 0) ∧
      runs.map (fun r => r.vms) =
        (List.replicate exTestConfig.repeats ([exVm].map (fun v => repeatVM v 1))).flatten ∧
      runs.length = exTestConfig.repeats * [exVm].length) ∧
    determineRunsForTest exTestConfig (fun _ => 0) ([] ++ exVariantEmpty :: [exVariant]) 0 =
      determineRunsForTest exTestConfig (fun _ => 0) ([] ++ [exVariant]) 0 := by
  have h := determineRunsForTest_admissibility exTestConfig (fun _ => 0) 1
    exVariant exVariantEmpty [exVm] 0 [] [exVariant] rfl (by decide)
  exact ⟨rfl, by decide, h.2.1, h.2.2⟩

end Vmshed
